import Mathlib

/-!
# Verification of the AspireLearn API core logic

A shallow embedding, in Lean 4, of the business-logic core of the
AspireLearn learning-management backend: the role resolver, the course /
lesson / quiz / question / answer entity services, the course cascade
orchestrator with its answer-synchronisation step, the serializer-level
validations (course title uniqueness, user e-mail uniqueness), and the
JWT authentication gate.

The persistence layer is modelled as an explicit `Store` of entity rows;
each service method of the Python source becomes a Lean function over
that store, returning `Except String _` where the source can raise.
Machine-assigned primary keys are modelled by the `nextId` counter of
the store.  External collaborators (the JWT library, file storage) are
modelled as parameters or, where the repository's own code is missing,
from the specification (each such definition says so in its doc
comment).
-/

set_option maxRecDepth 4000

deriving instance DecidableEq for Except

/-! ## Data model (app/courses/models, django.contrib.auth) -/

/-- A row of the `answers` table (`AnswerModel`). -/
structure Answer where
  id : Nat
  question : Nat
  text : String
  is_correct : Bool
  is_multiple_choice : Bool
deriving DecidableEq, Repr

/-- A row of the `questions` table (`QuestionModel`). -/
structure Question where
  id : Nat
  quiz : Nat
  text : String
deriving DecidableEq, Repr

/-- A row of the `quizzes` table (`QuizModel`). -/
structure Quiz where
  id : Nat
  title : String
  course : Nat
deriving DecidableEq, Repr

/-- A row of the `lessons` table (`LessonModel`; the model file itself is
not part of the sources, its fields are those listed by
`LessonSerializer`: id, title, content, video_url, order, course). -/
structure Lesson where
  id : Nat
  title : String
  content : String
  video_url : String
  order : Nat
  course : Nat
deriving DecidableEq, Repr

/-- A row of the `courses` table (`CourseModel`): soft-deletable via the
nullable `deleted_at` timestamp. -/
structure Course where
  id : Nat
  title : String
  description : String
  instructor : Nat
  deleted_at : Option Nat
deriving DecidableEq, Repr

/-- A row of Django's `auth_user` table, restricted to the fields the
verified logic reads. -/
structure DashUser where
  id : Nat
  username : String
  email : String
deriving DecidableEq, Repr

/-- The relational store.  `nextId` models the database's primary-key
sequence: every row ever inserted receives the current `nextId` (ids
start at 1, so a persisted row's id is never the Python-falsy `0`). -/
structure Store where
  nextId : Nat
  users : List DashUser
  courses : List Course
  lessons : List Lesson
  quizzes : List Quiz
  questions : List Question
  answers : List Answer
deriving DecidableEq, Repr

/-! ## Role resolver (app/abstract/base_user_serializer.py and
app/users/serializers/user_serializer.py) -/

/-- Python's `name.lower()`, character by character. -/
def pyLower (s : String) : String :=
  String.mk (s.data.map Char.toLower)

/-- `BaseUserSerializer.get_role`: lower-cases every group name, then
tests for `admin`, `instructor`, `student` in that priority order;
returns `None` when nothing matches. -/
def BaseUserSerializer.get_role (group_names : List String) : Option String :=
  let lowered := group_names.map pyLower
  if lowered.contains "admin" then some "Admin"
  else if lowered.contains "instructor" then some "Instructor"
  else if lowered.contains "student" then some "Student"
  else none

/-- `UserSerializer.get_role`: tests the raw group names (no
lower-casing in this variant) for the lowercase literals `admin`,
`instructor`, `student`, returning `"unknown"` when nothing matches. -/
def UserSerializer.get_role (group_names : List String) : String :=
  if group_names.contains "admin" then "admin"
  else if group_names.contains "instructor" then "instructor"
  else if group_names.contains "student" then "student"
  else "unknown"

/-! ## Course title validation
(app/courses/serializers/course_serializer.py).

`CourseSerializer.validate_title` filters the course table by
`title=value, deleted_at__isnull=True` (the custom `CourseManager`
additionally pre-filters `deleted_at__isnull=True`, which imposes the
same condition), excluding the instance under update when there is one,
and raises when a match exists.  `validate_title` below returns `true`
when validation passes. -/

/-- The queryset `CourseModel.objects.filter(title=value,
deleted_at__isnull=True)`, optionally `.exclude(id=inst)`. -/
def CourseSerializer.titleClashes (courses : List Course) (inst : Option Nat)
    (value : String) : List Course :=
  courses.filter (fun c =>
    c.title == value && c.deleted_at == none
      && (match inst with
          | some i => c.id != i
          | none => true))

/-- `CourseSerializer.validate_title` (true = passes, false = the
serializer raises "A course with this title already exists."). -/
def CourseSerializer.validate_title (courses : List Course)
    (inst : Option Nat) (value : String) : Bool :=
  (CourseSerializer.titleClashes courses inst value).isEmpty

/-! ## User e-mail validation and user update
(app/users/serializers/user_serializer.py, app/services/user_service.py) -/

/-- Partial-update payload for a user (`data` of
`DashUsersService.update_user`); only fields the verified logic touches. -/
structure UserUpd where
  username : Option String
  email : Option String
deriving DecidableEq, Repr

/-- `UserSerializer.validate_email`: raises whenever any user row —
including the instance being updated — already stores the e-mail.
Returns `true` when the serializer raises. -/
def UserSerializer.validate_email (users : List DashUser) (value : String) : Bool :=
  users.any (fun u => u.email == value)

/-- `DashUsersService.update_user`: fetch the user (404 when absent),
run the partial serializer (field validators run for the fields present
in `data`), then persist the updated row. -/
def DashUsersService.update_user (s : Store) (user_id : Nat) (data : UserUpd) :
    Except String Store :=
  match s.users.find? (fun u => u.id == user_id) with
  | none => .error "404: user not found"
  | some _u =>
    match data.email with
    | some e =>
      if UserSerializer.validate_email s.users e then
        .error "A user with this email already exists."
      else
        .ok { s with users := s.users.map (fun v =>
          if v.id == user_id then
            { v with email := e, username := data.username.getD v.username }
          else v) }
    | none =>
      .ok { s with users := s.users.map (fun v =>
        if v.id == user_id then
          { v with username := data.username.getD v.username }
        else v) }

/-! ## Authentication gate (app/services/authentication_service.py) -/

/-- Python's `s.startswith(p)` / Django's `request.path.startswith`,
on the character sequences of the strings. -/
def pyStartsWith (s p : String) : Bool :=
  p.data.isPrefixOf s.data

/-- Python's `header.split(' ')` on a character list: splits at every
single space, keeping empty pieces (so `"a  b"` gives three pieces and
`""` gives one empty piece), exactly like `str.split(' ')`. -/
def pySplitSpaceAux : List Char → List Char → List String
  | [], acc => [String.mk acc.reverse]
  | c :: cs, acc =>
    if c = ' ' then String.mk acc.reverse :: pySplitSpaceAux cs []
    else pySplitSpaceAux cs (c :: acc)

/-- Python's `s.split(' ')`. -/
def pySplitSpace (s : String) : List String :=
  pySplitSpaceAux s.data []

/-- Outcome of `AuthenticationService.authenticate_request`. -/
inductive AuthOutcome where
  /-- The method returns `None`: the request proceeds. -/
  | allowed : AuthOutcome
  /-- `HttpResponseForbidden("Authorization credentials not provided.")`. -/
  | forbiddenNoCredentials : AuthOutcome
  /-- `HttpResponseForbidden("Invalid or expired token.")`, from the
  `except (InvalidToken, TokenError)` handler. -/
  | forbiddenInvalidToken : AuthOutcome
  /-- `HttpResponseForbidden("You do not have permission to access this
  resource.")`, from the `is_authenticated` check. -/
  | forbiddenNoPermission : AuthOutcome
  /-- An uncaught `ValueError` escaping from
  `prefix, token = auth_header.split(' ')`. -/
  | uncaughtValueError : AuthOutcome
deriving DecidableEq, Repr

/-- The `excluded_routes` list built in
`AuthenticationService.__init__` from the `DJANGO_API_VERSION`
environment value. -/
def AuthenticationService.excluded_routes (api_version : String) : List String :=
  ["/api/" ++ api_version ++ "/auth/login",
   "/api/" ++ api_version ++ "/auth/logout"]

/-- `AuthenticationService.authenticate_request`.

`tokenValid` models the external JWT library boundary
(`get_validated_token` followed by `get_user`): `true` means the token
validates and yields an (authenticated) user; `false` means
`InvalidToken`/`TokenError` is raised.  `requestUserAuthenticated`
models `request.user.is_authenticated` for the user attached to the
request before the gate runs (an anonymous user gives `false`). -/
def AuthenticationService.authenticate_request (api_version : String)
    (tokenValid : String → Bool) (requestUserAuthenticated : Bool)
    (path : String) (auth_header : Option String) : AuthOutcome :=
  if pyStartsWith path "/api/"
      && !((AuthenticationService.excluded_routes api_version).any
            (fun r => pyStartsWith path r)) then
    match auth_header with
    | none => .forbiddenNoCredentials
    | some h =>
      -- `if auth_header:` — the empty string is falsy in Python
      if h == "" then .forbiddenNoCredentials
      else
        match pySplitSpace h with
        | [p, token] =>
          if p == "Bearer" then
            if tokenValid token then
              -- request.user := the token's user, which is authenticated
              .allowed
            else .forbiddenInvalidToken
          else
            -- no validation attempted; fall through to the
            -- `is_authenticated` check on the pre-existing request.user
            if requestUserAuthenticated then .allowed
            else .forbiddenNoPermission
        | _ => .uncaughtValueError
  else .allowed

/-! ## Nested payloads of the course cascade (§6 payload shape) -/

/-- One entry of a `questions: [...]` payload: `title` (renamed to
`text` before persistence), `is_multiple_choice`, `options`,
`correct_answer`. -/
structure QuestionData where
  title : Option String
  is_multiple_choice : Bool
  options : List String
  correct_answer : String
deriving DecidableEq, Repr

/-- One entry of a `quizzes: [...]` payload. -/
structure QuizData where
  id : Option Nat
  title : Option String
  questions : List QuestionData
deriving DecidableEq, Repr

/-- One entry of a `lessons: [...]` payload (`video` is the optional
uploaded artifact, represented by its file name). -/
structure LessonData where
  id : Option Nat
  title : Option String
  content : Option String
  order : Option Nat
  video : Option String
deriving DecidableEq, Repr

/-- A course create/update payload. -/
structure CourseData where
  title : Option String
  description : Option String
  instructor : Option Nat
  lessons : List LessonData
  quizzes : List QuizData
deriving DecidableEq, Repr

/-! ## Entity services (app/services) -/

/-- `get_object_or_404(QuestionModel, id=question_id)` succeeds. -/
def QuestionService.questionExists (question_id : Nat) (s : Store) : Bool :=
  s.questions.any (fun q => q.id == question_id)

/-- `AnswerService.get_answers_by_question`: 404 when the question is
absent, otherwise the question's answer rows. -/
def AnswerService.get_answers_by_question (question_id : Nat) (s : Store) :
    Except String (List Answer) :=
  if QuestionService.questionExists question_id s then
    .ok (s.answers.filter (fun a => a.question == question_id))
  else .error "404: question not found"

/-- `AnswerService.create_answer`: 404 when the question is absent,
otherwise validate and insert the new row (fresh id from the
sequence). -/
def AnswerService.create_answer (question_id : Nat) (text : String)
    (is_corr mult : Bool) (s : Store) : Except String Store :=
  if QuestionService.questionExists question_id s then
    .ok { s with
      answers := s.answers ++ [⟨s.nextId, question_id, text, is_corr, mult⟩],
      nextId := s.nextId + 1 }
  else .error "404: question not found"

/-- Remove the first row matched by `p` (the queryset's `.first()`
followed by `.delete()`). -/
def eraseFirstAnswer (p : Answer → Bool) : List Answer → List Answer
  | [] => []
  | a :: rest => if p a then rest else a :: eraseFirstAnswer p rest

/-- `AnswerService.delete_answer_by_question_and_text`: delete the first
answer row matching the question and text, or raise `ValueError` when
none matches. -/
def AnswerService.delete_answer_by_question_and_text (question_id : Nat)
    (answer_text : String) (s : Store) : Except String Store :=
  if s.answers.any (fun a => a.question == question_id && a.text == answer_text) then
    .ok { s with answers := eraseFirstAnswer (fun a => a.question == question_id && a.text == answer_text) s.answers }
  else .error "Answer with the given text not found for the question."

/-- `answer.save()` on a mutated in-memory row: write it back over the
row with the same primary key. -/
def saveAnswer (a : Answer) (s : Store) : Store :=
  { s with answers := s.answers.map (fun x => if x.id == a.id then a else x) }

/-- Python's `os.path.join` on two POSIX components, as used in
`handle_video_upload`: an absolute second component replaces the
first; otherwise they are concatenated, inserting a separator unless
the first is empty or already ends in one. -/
def os_path_join (a b : String) : String :=
  if pyStartsWith b "/" then b
  else if a == "" then b
  else if a.data.getLast? == some '/' then a ++ b
  else a ++ "/" ++ b

/-- Function `handle_video_upload` (app/services/utils.py): save the
artifact under `os.path.join("videos", video_file.name)` through
Django's `default_storage.save`, then return
`os.path.join(settings.MEDIA_URL, file_path)`.  `default_storage` is
an external collaborator: the path it chooses for a requested path is
the oracle parameter `storage_save` (the file's bytes are irrelevant
to it here).  `settings.MEDIA_URL` is deployment configuration, the
parameter `MEDIA_URL`.  The artifact's `.name` is `video_name`. -/
def handle_video_upload (storage_save : String → String) (MEDIA_URL : String)
    (video_name : String) : String :=
  os_path_join MEDIA_URL (storage_save (os_path_join "videos" video_name))

/-- `lesson_data["video_url"] = handle_video_upload(video_file) if
video_file else ""` — computed in both `create_lesson` and
`update_lesson`. -/
def LessonData.videoUrl (storage_save : String → String) (MEDIA_URL : String)
    (d : LessonData) : String :=
  match d.video with
  | some v => handle_video_upload storage_save MEDIA_URL v
  | none => ""

/-- `LessonService.create_lesson`: always (re)computes `video_url`
(empty when no artifact), validates the serializer's required fields
and the course foreign key (the course manager excludes soft-deleted
rows), and inserts the row. -/
def LessonService.create_lesson (storage_save : String → String)
    (MEDIA_URL : String) (lesson_course : Nat) (d : LessonData)
    (s : Store) : Except String (Store × Lesson) :=
  match d.title, d.content, d.order with
  | some ti, some co, some o =>
    if s.courses.any (fun c => c.id == lesson_course && c.deleted_at == none) then
      let l : Lesson := ⟨s.nextId, ti, co, d.videoUrl storage_save MEDIA_URL, o, lesson_course⟩
      .ok ({ s with lessons := s.lessons ++ [l], nextId := s.nextId + 1 }, l)
    else .error "validation: course does not exist"
  | _, _, _ => .error "validation: missing lesson fields"

/-- `LessonService.update_lesson`: 404 when absent; partial update of
the provided fields; `video_url` is always overwritten because the
service always sets it in `lesson_data` before serializing. -/
def LessonService.update_lesson (storage_save : String → String)
    (MEDIA_URL : String) (lesson_id : Nat) (d : LessonData)
    (s : Store) : Except String (Store × Lesson) :=
  match s.lessons.find? (fun l => l.id == lesson_id) with
  | none => .error "404: lesson not found"
  | some l =>
    let l2 : Lesson := { l with
      title := d.title.getD l.title,
      content := d.content.getD l.content,
      order := d.order.getD l.order,
      video_url := d.videoUrl storage_save MEDIA_URL }
    .ok ({ s with
      lessons := s.lessons.map (fun x => if x.id == lesson_id then l2 else x) },
      l2)

/-- Modelled from the spec: `QuizService.create_quiz`
(app/services/quiz_service.py is not among the sources).  Per §4.2,
create validates the required fields — a Quiz's parent Course must
exist — rejects with a validation error otherwise, and persists the
row, returning it with its id. -/
def QuizService.create_quiz (d : QuizData) (quiz_course : Nat) (s : Store) :
    Except String (Store × Quiz) :=
  match d.title with
  | some ti =>
    if s.courses.any (fun c => c.id == quiz_course && c.deleted_at == none) then
      let q : Quiz := ⟨s.nextId, ti, quiz_course⟩
      .ok ({ s with quizzes := s.quizzes ++ [q], nextId := s.nextId + 1 }, q)
    else .error "validation: course does not exist"
  | none => .error "validation: missing quiz title"

/-- Modelled from the spec: `QuizService.update_quiz`
(app/services/quiz_service.py is not among the sources).  Per §4.2,
`update(id, partial_data)` fetches the quiz (404 when absent) and
applies the partial data to the quiz entity itself; nested questions
are not part of the entity update. -/
def QuizService.update_quiz (quiz_id : Nat) (d : QuizData) (s : Store) :
    Except String Store :=
  match s.quizzes.find? (fun q => q.id == quiz_id) with
  | none => .error "404: quiz not found"
  | some q =>
    let q2 : Quiz := { q with title := d.title.getD q.title }
    .ok { s with
      quizzes := s.quizzes.map (fun x => if x.id == quiz_id then q2 else x) }

/-- `QuestionService.create_question`: 404 when the quiz is absent,
otherwise insert the question row (its `text` is the payload's renamed
`title`). -/
def QuestionService.create_question (quiz_id : Nat) (text : String)
    (s : Store) : Except String (Store × Question) :=
  if s.quizzes.any (fun q => q.id == quiz_id) then
    let q : Question := ⟨s.nextId, quiz_id, text⟩
    .ok ({ s with questions := s.questions ++ [q], nextId := s.nextId + 1 }, q)
  else .error "404: quiz not found"

/-! ## Answer synchronisation
(`CourseService._create_or_update_answers`) -/

/-- The Python dict-comprehension basis: inserting under an existing
key overwrites its value in place, a new key is appended. -/
def dictInsert (d : List (String × Answer)) (k : String) (v : Answer) :
    List (String × Answer) :=
  if d.any (fun p => p.1 == k) then
    d.map (fun p => if p.1 == k then (k, v) else p)
  else d ++ [(k, v)]

/-- `{answer.text: answer for answer in ...}`: keys in first-occurrence
order, each mapped to the last answer bearing that text. -/
def dictOfAnswers (l : List Answer) : List (String × Answer) :=
  l.foldl (fun d a => dictInsert d a.text a) []

/-- The deletion loop of `_create_or_update_answers`: for every key of
the snapshot dict not among the incoming options, delete that answer. -/
def CourseService.syncDeleteLoop (question_id : Nat) (options_data : List String)
    (keys : List String) (s : Store) : Except String Store :=
  keys.foldlM (fun st k =>
    if options_data.contains k then pure st
    else AnswerService.delete_answer_by_question_and_text question_id k st) s

/-- The add-or-update loop of `_create_or_update_answers`: for every
incoming option, create a missing answer, or flip the stored
`is_correct` in place when it disagrees.  The lookups go through the
snapshot dict taken before the loops. -/
def CourseService.syncUpsertLoop (question_id : Nat) (correct_answer : String)
    (dict : List (String × Answer)) (options_data : List String) (s : Store) :
    Except String Store :=
  options_data.foldlM (fun st o =>
    match dict.lookup o with
    | none => AnswerService.create_answer question_id o (o == correct_answer) true st
    | some answer =>
      pure (if answer.is_correct != (o == correct_answer)
            then saveAnswer { answer with is_correct := (o == correct_answer) } st
            else st)) s

/-- `CourseService._create_or_update_answers`: reconcile one question's
answers against the submitted option data. -/
def CourseService.create_or_update_answers (question_id : Nat)
    (question_data : QuestionData) (s : Store) : Except String Store := do
  let existing ← AnswerService.get_answers_by_question question_id s
  let existing_answers := dictOfAnswers existing
  if question_data.is_multiple_choice then
    let options_data := question_data.options
    let correct_answer := question_data.correct_answer
    let s1 ← CourseService.syncDeleteLoop question_id options_data
      (existing_answers.map Prod.fst) s
    CourseService.syncUpsertLoop question_id correct_answer existing_answers
      options_data s1
  else
    let correct_answer := question_data.correct_answer
    match existing_answers.lookup correct_answer with
    | some existing_answer =>
      pure (saveAnswer { existing_answer with is_correct := true } s)
    | none =>
      AnswerService.create_answer question_id correct_answer true false s

/-! ## Course cascade orchestrator (app/services/course_service.py) -/

/-- `CourseService.create_lessons_and_quizzes`: the create-path fan-out
over nested lessons, quizzes, questions and answers. -/
def CourseService.create_lessons_and_quizzes (storage_save : String → String)
    (MEDIA_URL : String) (course : Course)
    (lessons : List LessonData) (quizzes : List QuizData) (s : Store) :
    Except String Store := do
  let s ← lessons.foldlM (fun st lesson => do
    if course.id == 0 then throw "Course ID is missing for the lesson."
    let (st2, created_lesson) ←
      LessonService.create_lesson storage_save MEDIA_URL course.id lesson st
    if created_lesson.id == 0 then throw "Failed to Lesson."
    pure st2) s
  if quizzes.length > 0 then
    quizzes.foldlM (fun st quiz => do
      if course.id == 0 then throw "Course ID is missing for the quiz."
      if quiz.questions.isEmpty then throw "Each quiz must have questions."
      -- `if not quiz.get("title")`: a missing or empty title is falsy
      if quiz.title.getD "" == "" then throw "Quiz title/text is missing."
      let (st2, created_quiz) ← QuizService.create_quiz quiz course.id st
      if created_quiz.id == 0 then throw "Failed to create quiz."
      -- question_ctr equals 1 for every question of this quiz: the
      -- increment sits after the inner loop, at the quiz level
      quiz.questions.foldlM (fun st3 question_data => do
        match question_data.title with
        | none => throw "Question 1 is missing."
        | some question => do
          let (st4, created_question) ←
            QuestionService.create_question created_quiz.id question st3
          CourseService.create_or_update_answers created_question.id
            question_data st4) st2) s
  else pure s

/-- `CourseService._create_or_update_question_and_answers`: create the
question (its payload `title` renamed to `text`) under the quiz, then
reconcile its answers. -/
def CourseService.create_or_update_question_and_answers (quiz_id : Nat)
    (question_data : QuestionData) (s : Store) : Except String Store := do
  match question_data.title with
  | none => throw "Question title is missing."
  | some question_text => do
    let (s2, created_question) ←
      QuestionService.create_question quiz_id question_text s
    CourseService.create_or_update_answers created_question.id
      question_data s2

/-- The else-branch of the update path's quiz loop: attach the course,
create the quiz, then process its nested questions and answers. -/
def CourseService.createQuizWithQuestions (course_id : Nat) (quiz : QuizData)
    (s : Store) : Except String Store := do
  let (st2, created_quiz) ← QuizService.create_quiz quiz course_id s
  quiz.questions.foldlM (fun st3 question_data =>
    CourseService.create_or_update_question_and_answers
      created_quiz.id question_data st3) st2

/-- The update path's lesson loop: a lesson whose id is in the
existing-lesson map is delegated to lesson update, any other is
created under the course. -/
def CourseService.updateLessonsLoop (storage_save : String → String)
    (MEDIA_URL : String) (course : Course)
    (existing_lessons : List Nat) (lessons : List LessonData) (s : Store) :
    Except String Store :=
  lessons.foldlM (fun st lesson =>
    match lesson.id with
    | some lesson_id =>
      -- `if lesson_id and lesson_id in existing_lessons` (0 is falsy)
      if lesson_id != 0 && existing_lessons.contains lesson_id then
        (LessonService.update_lesson storage_save MEDIA_URL lesson_id lesson st).map Prod.fst
      else
        (LessonService.create_lesson storage_save MEDIA_URL course.id lesson st).map Prod.fst
    | none =>
      (LessonService.create_lesson storage_save MEDIA_URL course.id lesson st).map Prod.fst) s

/-- The update path's quiz loop: a quiz whose id is in the
existing-quiz map is delegated to quiz update (no question/answer
processing), any other goes through `createQuizWithQuestions`. -/
def CourseService.updateQuizzesLoop (course : Course)
    (existing_quizzes : List Nat) (quizzes : List QuizData) (s : Store) :
    Except String Store :=
  quizzes.foldlM (fun st quiz =>
    match quiz.id with
    | some quiz_id =>
      if quiz_id != 0 && existing_quizzes.contains quiz_id then
        QuizService.update_quiz quiz_id quiz st
      else
        CourseService.createQuizWithQuestions course.id quiz st
    | none => CourseService.createQuizWithQuestions course.id quiz st) s

/-- `CourseService.update_lessons_and_quizzes`: the update-path merge.
Lessons and quizzes carrying the id of an existing child of the course
are delegated to the child service's update; all others are created
(and a newly created quiz also gets its questions and answers
processed).  Children omitted from the incoming lists are never
touched. -/
def CourseService.update_lessons_and_quizzes (storage_save : String → String)
    (MEDIA_URL : String) (course : Course)
    (lessons : List LessonData) (quizzes : List QuizData) (s : Store) :
    Except String Store := do
  -- both existing-children maps are computed from the state as it is
  -- when the method starts
  let s1 ← CourseService.updateLessonsLoop storage_save MEDIA_URL course
    ((s.lessons.filter (fun l => l.course == course.id)).map Lesson.id) lessons s
  CourseService.updateQuizzesLoop course
    ((s.quizzes.filter (fun q => q.course == course.id)).map Quiz.id) quizzes s1

/-- `CourseService.create_course`: require `instructor`, validate the
course serializer (required fields, title uniqueness among non-deleted
courses, instructor foreign key), persist the course, then fan out to
the nested lessons and quizzes. -/
def CourseService.create_course (storage_save : String → String)
    (MEDIA_URL : String) (data : CourseData) (s : Store) :
    Except String Store := do
  if data.instructor.isNone then throw "Instructor is required"
  match data.title, data.description, data.instructor with
  | some t, some d, some ins =>
    if !CourseSerializer.validate_title s.courses none t then
      throw "A course with this title already exists."
    if !(s.users.any (fun u => u.id == ins)) then
      throw "validation: instructor does not exist"
    let course : Course := ⟨s.nextId, t, d, ins, none⟩
    let s2 : Store :=
      { s with courses := s.courses ++ [course], nextId := s.nextId + 1 }
    CourseService.create_lessons_and_quizzes storage_save MEDIA_URL course
      data.lessons data.quizzes s2
  | _, _, _ => throw "validation: missing course fields"

/-! ## Courses view (app/courses/views/courses_view.py) -/

/-- `rest_framework.status.HTTP_201_CREATED`. -/
def HTTP_201_CREATED : Nat := 201

/-- `rest_framework.status.HTTP_400_BAD_REQUEST`. -/
def HTTP_400_BAD_REQUEST : Nat := 400

/-- `CoursesView.post`: delegate to `create_course` and wrap the result
in a `Response` — whose status argument in the source is
`status.HTTP_400_BAD_REQUEST`, also on success.  Exceptions propagate
to the framework's handler. -/
def CoursesView.post (storage_save : String → String) (MEDIA_URL : String)
    (data : CourseData) (s : Store) :
    Except String (Store × Nat) :=
  (CourseService.create_course storage_save MEDIA_URL data s).map
    (fun s2 => (s2, HTTP_400_BAD_REQUEST))

/-! ## Claim C4: role resolution -/

/-- C4, counterexample: the claim asserts that the group-name match is
case-insensitive in both serializer variants.  It is not: the group
name `"Admin"` matches `"admin"` case-insensitively, yet
`UserSerializer.get_role` — which compares the raw names against the
lowercase literals — returns the `"unknown"` sentinel for it instead of
the admin role. -/
theorem role_resolution_case_sensitivity :
    pyLower "Admin" = "admin" ∧ UserSerializer.get_role ["Admin"] = "unknown" := by
  decide

/-- C4 (amended): for every membership set, `BaseUserSerializer.get_role`
resolves with priority admin > instructor > student on the lower-cased
names (hence case-insensitively), with sentinel `none`; while
`UserSerializer.get_role` applies the same priority by comparing the
raw names case-sensitively against the lowercase literals, with
sentinel `"unknown"`. -/
theorem role_resolution (names : List String) :
    ((names.map pyLower).contains "admin" = true →
        BaseUserSerializer.get_role names = some "Admin") ∧
    ((names.map pyLower).contains "admin" = false →
      (names.map pyLower).contains "instructor" = true →
        BaseUserSerializer.get_role names = some "Instructor") ∧
    ((names.map pyLower).contains "admin" = false →
      (names.map pyLower).contains "instructor" = false →
      (names.map pyLower).contains "student" = true →
        BaseUserSerializer.get_role names = some "Student") ∧
    ((names.map pyLower).contains "admin" = false →
      (names.map pyLower).contains "instructor" = false →
      (names.map pyLower).contains "student" = false →
        BaseUserSerializer.get_role names = none) ∧
    (names.contains "admin" = true → UserSerializer.get_role names = "admin") ∧
    (names.contains "admin" = false → names.contains "instructor" = true →
        UserSerializer.get_role names = "instructor") ∧
    (names.contains "admin" = false → names.contains "instructor" = false →
      names.contains "student" = true → UserSerializer.get_role names = "student") ∧
    (names.contains "admin" = false → names.contains "instructor" = false →
      names.contains "student" = false → UserSerializer.get_role names = "unknown") := by
  refine ⟨?_, ?_, ?_, ?_, ?_, ?_, ?_, ?_⟩
  · intro h1
    simp only [BaseUserSerializer.get_role]; rw [h1]; simp
  · intro h1 h2
    simp only [BaseUserSerializer.get_role]; rw [h1, h2]; simp
  · intro h1 h2 h3
    simp only [BaseUserSerializer.get_role]; rw [h1, h2, h3]; simp
  · intro h1 h2 h3
    simp only [BaseUserSerializer.get_role]; rw [h1, h2, h3]; simp
  · intro h1
    simp only [UserSerializer.get_role]; rw [h1]; simp
  · intro h1 h2
    simp only [UserSerializer.get_role]; rw [h1, h2]; simp
  · intro h1 h2 h3
    simp only [UserSerializer.get_role]; rw [h1, h2, h3]; simp
  · intro h1 h2 h3
    simp only [UserSerializer.get_role]; rw [h1, h2, h3]; simp

/-- Closed instance of `role_resolution`: an upper-case membership is
still resolved by the base variant, and the priority order is honoured
by the raw variant. -/
theorem role_resolution_witness :
    BaseUserSerializer.get_role ["ADMIN"] = some "Admin" ∧
    UserSerializer.get_role ["instructor", "student"] = "instructor" :=
  ⟨(role_resolution ["ADMIN"]).1 (by decide),
   (role_resolution ["instructor", "student"]).2.2.2.2.2.1 (by decide) (by decide)⟩

/-! ## Claim C5: course title uniqueness -/

/-- C5: a create (no instance) clashing with a non-deleted course fails
validation; a create clashing only with soft-deleted courses passes;
an update of course `c` that re-submits `c`'s own title passes, because
`c` itself is excluded from the clash queryset (given the invariant
that non-deleted titles are otherwise unique). -/
theorem course_title_uniqueness (courses : List Course) (t : String) :
    ((∃ c ∈ courses, c.title = t ∧ c.deleted_at = none) →
        CourseSerializer.validate_title courses none t = false) ∧
    ((∀ c ∈ courses, c.title = t → c.deleted_at ≠ none) →
        CourseSerializer.validate_title courses none t = true) ∧
    (∀ c ∈ courses, c.deleted_at = none →
      (∀ c' ∈ courses, c'.title = c.title → c'.deleted_at = none → c'.id = c.id) →
      CourseSerializer.validate_title courses (some c.id) c.title = true) := by
  refine ⟨?_, ?_, ?_⟩
  · rintro ⟨c, hc, ht, hd⟩
    have hmem : c ∈ CourseSerializer.titleClashes courses none t :=
      List.mem_filter.mpr ⟨hc, by simp [ht, hd]⟩
    simp only [CourseSerializer.validate_title]
    rcases h : CourseSerializer.titleClashes courses none t with _ | ⟨a, l⟩
    · rw [h] at hmem; cases hmem
    · simp [List.isEmpty]
  · intro hall
    simp only [CourseSerializer.validate_title, List.isEmpty_iff,
      CourseSerializer.titleClashes, List.filter_eq_nil_iff]
    intro c hc
    simp only [Bool.and_eq_true, beq_iff_eq, not_and]
    rintro ⟨ht, hd⟩
    exact absurd (by simpa using hd) (hall c hc ht)
  · intro c hc hdel huniq
    simp only [CourseSerializer.validate_title, List.isEmpty_iff,
      CourseSerializer.titleClashes, List.filter_eq_nil_iff]
    intro c' hc'
    simp only [Bool.and_eq_true, beq_iff_eq, bne_iff_ne, not_and]
    rintro ⟨ht', hd'⟩
    intro hne
    exact hne (huniq c' hc' ht' (by simpa using hd'))

/-- Closed instance of `course_title_uniqueness` on a two-course table:
course 1 "T" live, course 2 "S" soft-deleted. -/
theorem course_title_uniqueness_witness :
    CourseSerializer.validate_title
      [⟨1, "T", "d", 7, none⟩, ⟨2, "S", "d", 7, some 5⟩] none "T" = false ∧
    CourseSerializer.validate_title
      [⟨1, "T", "d", 7, none⟩, ⟨2, "S", "d", 7, some 5⟩] none "S" = true ∧
    CourseSerializer.validate_title
      [⟨1, "T", "d", 7, none⟩, ⟨2, "S", "d", 7, some 5⟩] (some 1) "T" = true :=
  ⟨(course_title_uniqueness _ "T").1 ⟨⟨1, "T", "d", 7, none⟩, by decide, rfl, rfl⟩,
   (course_title_uniqueness _ "S").2.1 (by decide),
   (course_title_uniqueness _ "T").2.2 ⟨1, "T", "d", 7, none⟩ (by decide) rfl
     (by decide)⟩

/-! ## Claim C9: e-mail uniqueness never excludes the updated user -/

/-- C9: `UserSerializer.validate_email` queries the whole user table
without excluding the instance under update, so any `update_user` whose
partial data carries an e-mail stored on any row — the target's own
current e-mail included — is rejected. -/
theorem email_uniqueness_never_excludes_self (s : Store) (uid : Nat)
    (data : UserUpd) (u : DashUser)
    (hfind : s.users.find? (fun v => v.id == uid) = some u)
    (e : String) (he : data.email = some e)
    (hex : ∃ v ∈ s.users, v.email = e) :
    DashUsersService.update_user s uid data =
      .error "A user with this email already exists." := by
  have hval : UserSerializer.validate_email s.users e = true := by
    obtain ⟨v, hv, hve⟩ := hex
    simp only [UserSerializer.validate_email, List.any_eq_true]
    exact ⟨v, hv, by simp [hve]⟩
  simp only [DashUsersService.update_user, hfind, he, hval, if_true]

/-- Closed instance of `email_uniqueness_never_excludes_self`: user 1
re-submits their own stored e-mail and is rejected. -/
theorem email_uniqueness_never_excludes_self_witness :
    DashUsersService.update_user
      ⟨2, [⟨1, "zt", "zt@mail.test"⟩], [], [], [], [], []⟩ 1
      ⟨none, some "zt@mail.test"⟩ =
      .error "A user with this email already exists." :=
  email_uniqueness_never_excludes_self _ 1 _ ⟨1, "zt", "zt@mail.test"⟩
    (by decide) "zt@mail.test" rfl ⟨⟨1, "zt", "zt@mail.test"⟩, by decide, rfl⟩

/-! ## Claim C8: authentication gate -/

/-- C8: a request to an excluded (login/logout) route passes with any
credential state; a non-excluded `/api/` request with no Authorization
header is denied with the no-credentials response; one with a
well-formed `Bearer` header whose token fails validation is denied
with the distinct invalid-or-expired-token response. -/
theorem auth_gate (api_version : String) (tokenValid : String → Bool)
    (ua : Bool) :
    (∀ path hdr,
      (AuthenticationService.excluded_routes api_version).any
          (fun r => pyStartsWith path r) = true →
      AuthenticationService.authenticate_request api_version tokenValid ua
        path hdr = .allowed) ∧
    (∀ path, pyStartsWith path "/api/" = true →
      (AuthenticationService.excluded_routes api_version).any
          (fun r => pyStartsWith path r) = false →
      AuthenticationService.authenticate_request api_version tokenValid ua
        path none = .forbiddenNoCredentials) ∧
    (∀ path hdr token, pyStartsWith path "/api/" = true →
      (AuthenticationService.excluded_routes api_version).any
          (fun r => pyStartsWith path r) = false →
      pySplitSpace hdr = ["Bearer", token] → tokenValid token = false →
      AuthenticationService.authenticate_request api_version tokenValid ua
        path (some hdr) = .forbiddenInvalidToken) ∧
    AuthOutcome.forbiddenInvalidToken ≠ AuthOutcome.forbiddenNoCredentials := by
  refine ⟨?_, ?_, ?_, by decide⟩
  · intro path hdr hexc
    simp [AuthenticationService.authenticate_request, hexc]
  · intro path hpath hexc
    simp [AuthenticationService.authenticate_request, hpath, hexc]
  · intro path hdr token hpath hexc hsplit htok
    have hne : (hdr == "") = false := by
      rcases h : hdr == "" with _ | _
      · rfl
      · exfalso
        rw [show hdr = "" from by simpa using h] at hsplit
        rw [show pySplitSpace "" = [""] from rfl] at hsplit
        simp at hsplit
    simp [AuthenticationService.authenticate_request, hpath, hexc, hne,
      hsplit, htok]

/-- Closed instance of `auth_gate` with `DJANGO_API_VERSION = v1` and a
JWT boundary that rejects every token (e.g. all tokens expired). -/
theorem auth_gate_witness :
    AuthenticationService.authenticate_request "v1" (fun _ => false) false
      "/api/v1/auth/login" none = .allowed ∧
    AuthenticationService.authenticate_request "v1" (fun _ => false) false
      "/api/v1/users/" none = .forbiddenNoCredentials ∧
    AuthenticationService.authenticate_request "v1" (fun _ => false) false
      "/api/v1/users/" (some "Bearer sometok") = .forbiddenInvalidToken :=
  ⟨(auth_gate "v1" (fun _ => false) false).1 "/api/v1/auth/login" none (by decide),
   (auth_gate "v1" (fun _ => false) false).2.1 "/api/v1/users/" (by decide)
     (by decide),
   (auth_gate "v1" (fun _ => false) false).2.2.1 "/api/v1/users/"
     "Bearer sometok" "sometok" (by decide) (by decide) (by decide) rfl⟩

/-! ## Claim C10: malformed Authorization header -/

/-- C10: on a protected route, an Authorization header that does not
split into exactly two space-separated parts makes
`authenticate_request` raise an uncaught `ValueError` from the tuple
unpacking (only `InvalidToken`/`TokenError` are caught), instead of
returning a forbidden response. -/
theorem malformed_auth_header_raises (api_version : String)
    (tokenValid : String → Bool) (ua : Bool) (path : String) (hdr : String)
    (hpath : pyStartsWith path "/api/" = true)
    (hexc : (AuthenticationService.excluded_routes api_version).any
        (fun r => pyStartsWith path r) = false)
    (hne : (hdr == "") = false)
    (hparts : (pySplitSpace hdr).length ≠ 2) :
    AuthenticationService.authenticate_request api_version tokenValid ua
      path (some hdr) = .uncaughtValueError := by
  simp only [AuthenticationService.authenticate_request, hpath, hexc,
    Bool.not_false, Bool.and_self, if_true, hne, Bool.false_eq_true,
    if_false]
  rcases hsp : pySplitSpace hdr with _ | ⟨a, rest⟩
  · simp [hsp]
  · rcases rest with _ | ⟨b, rest2⟩
    · simp [hsp]
    · rcases rest2 with _ | ⟨c, t⟩
      · exfalso
        apply hparts
        rw [hsp]
        rfl
      · simp [hsp]

/-- Closed instance of `malformed_auth_header_raises`: the single word
`Bearer` (one part) triggers the uncaught `ValueError`. -/
theorem malformed_auth_header_raises_witness :
    AuthenticationService.authenticate_request "v1" (fun _ => true) false
      "/api/v1/users/" (some "Bearer") = .uncaughtValueError :=
  malformed_auth_header_raises "v1" (fun _ => true) false "/api/v1/users/"
    "Bearer" (by decide) (by decide) (by decide) (by decide)

/-! ## Claim C1: cascade create postcondition -/

/-- A fresh store holding only the instructor (user 7). -/
def c1store0 : Store := ⟨1, [⟨7, "inst", "i@x.test"⟩], [], [], [], [], []⟩

/-- The C1 payload: instructor, 2 lessons, 1 quiz with a
multiple-choice question (options A/B/C, correct B) and a single-answer
question (correct X). -/
def c1data : CourseData :=
  { title := some "Course T", description := some "D", instructor := some 7,
    lessons := [⟨none, some "L1", some "c1", some 1, none⟩,
                ⟨none, some "L2", some "c2", some 2, none⟩],
    quizzes := [⟨none, some "Qz",
      [⟨some "MCQ", true, ["A", "B", "C"], "B"⟩,
       ⟨some "SA", false, [], "X"⟩]⟩] }

/-- The store produced by running the C1 cascade (no lesson of the
payload carries a video artifact, so the run never consults the
storage oracle or `MEDIA_URL`; the identity oracle and the empty URL
are arbitrary representatives). -/
def c1result : Store :=
  (CourseService.create_course (fun p => p) "" c1data c1store0).toOption.getD c1store0

/-- C1: for every storage oracle and `MEDIA_URL`, the cascade persists
the course with an id, both lessons with ids, the quiz with an id,
both questions (their payload `title` became `text`), exactly three
answers for the multiple-choice question of which only "B" is correct,
and exactly one answer "X", marked correct, for the single-answer
question. -/
theorem cascade_create (sv : String → String) (mu : String) :
    CourseService.create_course sv mu c1data c1store0 = .ok c1result ∧
    c1result.courses.map Course.id = [1] ∧
    c1result.lessons.map Lesson.id = [2, 3] ∧
    c1result.quizzes.map Quiz.id = [4] ∧
    c1result.questions.map (fun q => (q.id, q.quiz, q.text)) =
      [(5, 4, "MCQ"), (9, 4, "SA")] ∧
    (c1result.answers.filter (fun a => a.question == 5)).map
        (fun a => (a.text, a.is_correct)) =
      [("A", false), ("B", true), ("C", false)] ∧
    (c1result.answers.filter (fun a => a.question == 9)).map
        (fun a => (a.text, a.is_correct)) = [("X", true)] :=
  ⟨rfl, by decide⟩

/-! ## Claim C2: answer-sync diff -/

/-- Question 3 with stored answers A (correct) and B (either flag), as
left by a previous sync with options [A, B] and correct answer A. -/
def c2store (b : Bool) : Store :=
  ⟨4, [], [], [], [], [⟨3, 99, "q"⟩],
    [⟨1, 3, "A", true, true⟩, ⟨2, 3, "B", b, true⟩]⟩

/-- C2: re-syncing question 3 with options [B, C] and correct answer C
deletes answer A, keeps answer B under its id 2 with `is_correct`
false, creates answer C (fresh id 4) marked correct — whatever flag B
had before — leaving exactly the set B:false, C:true. -/
theorem answer_sync_diff : ∀ b : Bool,
    CourseService.create_or_update_answers 3
        ⟨some "Q", true, ["B", "C"], "C"⟩ (c2store b) =
      .ok { c2store b with
        nextId := 5,
        answers := [⟨2, 3, "B", false, true⟩, ⟨4, 3, "C", true, true⟩] } := by
  decide

/-! ## Claim C7: status code of the create endpoint -/

/-- C7: even on a fully successful create (the C1 run, for every
storage oracle and `MEDIA_URL`), `CoursesView.post` responds with
`HTTP_400_BAD_REQUEST`, not the `HTTP_201_CREATED` its own
`@extend_schema` declares. -/
theorem post_status_on_success (sv : String → String) (mu : String) :
    CoursesView.post sv mu c1data c1store0 = .ok (c1result, HTTP_400_BAD_REQUEST) ∧
    HTTP_400_BAD_REQUEST ≠ HTTP_201_CREATED :=
  ⟨rfl, by decide⟩

/-! ## Fold machinery

The orchestrator loops are `foldlM` runs in the `Except` monad; the
lemmas below carry an invariant through a successful run. -/

/-- A property preserved by every successful step of a `foldlM` over
the store holds of the final store. -/
theorem foldlM_ok_inv {α : Type} {f : Store → α → Except String Store}
    {P : Store → Prop} :
    ∀ {l : List α} {s s' : Store},
    (∀ st a, a ∈ l → ∀ t, f st a = .ok t → P st → P t) →
    l.foldlM f s = .ok s' → P s → P s' := by
  intro l
  induction l with
  | nil =>
    intro s s' _ h hP
    simp only [List.foldlM_nil] at h
    cases h
    exact hP
  | cons a l ih =>
    intro s s' hstep h hP
    rw [List.foldlM_cons] at h
    cases hfa : f s a with
    | error e =>
      rw [hfa] at h
      exact absurd h (by simp [Bind.bind, Except.bind])
    | ok t =>
      rw [hfa] at h
      rw [show ((Except.ok t : Except String Store) >>= fun s1 =>
        List.foldlM f s1 l) = List.foldlM f t l from rfl] at h
      exact ih (fun st a' ha' => hstep st a' (List.mem_cons_of_mem _ ha')) h
        (hstep s a (List.mem_cons_self a l) t hfa hP)

/-- Unwrap `(· .map Prod.fst)` around a service returning a store and a
created row. -/
theorem exceptMap_fst_ok {β : Type} {e : Except String (Store × β)} {t : Store}
    (h : e.map Prod.fst = .ok t) : ∃ r, e = .ok (t, r) := by
  cases e with
  | error s => simp [Except.map] at h
  | ok p =>
    cases p with
    | mk a b =>
      simp only [Except.map, Except.ok.injEq] at h
      exact ⟨b, by rw [h]⟩

/-! ## Frame lemmas: which store components each service touches -/

/-- `update_lesson` rewrites only the lessons table. -/
theorem update_lesson_frame {sv : String → String} {mu : String}
    {lesson_id : Nat} {d : LessonData} {st t : Store}
    {lr : Lesson} (h : LessonService.update_lesson sv mu lesson_id d st = .ok (t, lr)) :
    t.users = st.users ∧ t.courses = st.courses ∧ t.quizzes = st.quizzes ∧
    t.questions = st.questions ∧ t.answers = st.answers ∧ t.nextId = st.nextId := by
  unfold LessonService.update_lesson at h
  split at h
  · cases h
  · cases h
    exact ⟨rfl, rfl, rfl, rfl, rfl, rfl⟩

/-- `create_lesson` appends to the lessons table and advances the id
sequence; nothing else changes. -/
theorem create_lesson_frame {sv : String → String} {mu : String}
    {cid : Nat} {d : LessonData} {st t : Store}
    {lr : Lesson} (h : LessonService.create_lesson sv mu cid d st = .ok (t, lr)) :
    t.users = st.users ∧ t.courses = st.courses ∧ t.quizzes = st.quizzes ∧
    t.questions = st.questions ∧ t.answers = st.answers := by
  unfold LessonService.create_lesson at h
  split at h
  · split at h
    · cases h
      exact ⟨rfl, rfl, rfl, rfl, rfl⟩
    · cases h
  · cases h

/-- `update_quiz` rewrites only the quizzes table. -/
theorem update_quiz_frame {quiz_id : Nat} {d : QuizData} {st t : Store}
    (h : QuizService.update_quiz quiz_id d st = .ok t) :
    t.users = st.users ∧ t.courses = st.courses ∧ t.lessons = st.lessons ∧
    t.questions = st.questions ∧ t.answers = st.answers ∧ t.nextId = st.nextId := by
  unfold QuizService.update_quiz at h
  split at h
  · cases h
  · cases h
    exact ⟨rfl, rfl, rfl, rfl, rfl, rfl⟩

/-- `create_quiz` appends to the quizzes table and advances the id
sequence; nothing else changes. -/
theorem create_quiz_frame {d : QuizData} {cid : Nat} {st t : Store} {qr : Quiz}
    (h : QuizService.create_quiz d cid st = .ok (t, qr)) :
    t.users = st.users ∧ t.courses = st.courses ∧ t.lessons = st.lessons ∧
    t.questions = st.questions ∧ t.answers = st.answers := by
  unfold QuizService.create_quiz at h
  split at h
  · split at h
    · cases h
      exact ⟨rfl, rfl, rfl, rfl, rfl⟩
    · cases h
  · cases h

/-- `create_question` appends to the questions table and advances the
id sequence; nothing else changes. -/
theorem create_question_frame {quiz_id : Nat} {text : String} {st t : Store}
    {qr : Question} (h : QuestionService.create_question quiz_id text st = .ok (t, qr)) :
    t.users = st.users ∧ t.courses = st.courses ∧ t.lessons = st.lessons ∧
    t.quizzes = st.quizzes ∧ t.answers = st.answers := by
  unfold QuestionService.create_question at h
  split at h
  · cases h
    exact ⟨rfl, rfl, rfl, rfl, rfl⟩
  · cases h

/-- `create_answer` appends to the answers table and advances the id
sequence; nothing else changes. -/
theorem create_answer_frame {question_id : Nat} {text : String} {b m : Bool}
    {st t : Store} (h : AnswerService.create_answer question_id text b m st = .ok t) :
    t.users = st.users ∧ t.courses = st.courses ∧ t.lessons = st.lessons ∧
    t.quizzes = st.quizzes ∧ t.questions = st.questions := by
  unfold AnswerService.create_answer at h
  split at h
  · cases h
    exact ⟨rfl, rfl, rfl, rfl, rfl⟩
  · cases h

/-- `delete_answer_by_question_and_text` removes from the answers
table; nothing else changes. -/
theorem delete_answer_frame {question_id : Nat} {text : String} {st t : Store}
    (h : AnswerService.delete_answer_by_question_and_text question_id text st = .ok t) :
    t.users = st.users ∧ t.courses = st.courses ∧ t.lessons = st.lessons ∧
    t.quizzes = st.quizzes ∧ t.questions = st.questions ∧ t.nextId = st.nextId := by
  unfold AnswerService.delete_answer_by_question_and_text at h
  split at h
  · cases h
    exact ⟨rfl, rfl, rfl, rfl, rfl, rfl⟩
  · cases h

/-- The whole answer-sync step touches only the answers table and the
id sequence. -/
theorem sync_frame {question_id : Nat} {qd : QuestionData} {st t : Store}
    (h : CourseService.create_or_update_answers question_id qd st = .ok t) :
    t.users = st.users ∧ t.courses = st.courses ∧ t.lessons = st.lessons ∧
    t.quizzes = st.quizzes ∧ t.questions = st.questions := by
  unfold CourseService.create_or_update_answers at h
  cases hg : AnswerService.get_answers_by_question question_id st with
  | error e =>
    rw [hg] at h
    exact absurd h (by simp [Bind.bind, Except.bind])
  | ok existing =>
    rw [hg] at h
    rw [show ((Except.ok existing : Except String (List Answer)) >>= fun ex =>
      (if qd.is_multiple_choice then
        CourseService.syncDeleteLoop question_id qd.options
            ((dictOfAnswers ex).map Prod.fst) st >>= fun s1 =>
          CourseService.syncUpsertLoop question_id qd.correct_answer
            (dictOfAnswers ex) qd.options s1
      else
        match (dictOfAnswers ex).lookup qd.correct_answer with
        | some existing_answer =>
          pure (saveAnswer { existing_answer with is_correct := true } st)
        | none =>
          AnswerService.create_answer question_id qd.correct_answer true false st)) =
      (if qd.is_multiple_choice then
        CourseService.syncDeleteLoop question_id qd.options
            ((dictOfAnswers existing).map Prod.fst) st >>= fun s1 =>
          CourseService.syncUpsertLoop question_id qd.correct_answer
            (dictOfAnswers existing) qd.options s1
      else
        match (dictOfAnswers existing).lookup qd.correct_answer with
        | some existing_answer =>
          pure (saveAnswer { existing_answer with is_correct := true } st)
        | none =>
          AnswerService.create_answer question_id qd.correct_answer true false st)
      from rfl] at h
    cases hmc : qd.is_multiple_choice with
    | false =>
      rw [hmc] at h
      simp only [Bool.false_eq_true, if_false] at h
      split at h
      · cases h
        exact ⟨rfl, rfl, rfl, rfl, rfl⟩
      · exact create_answer_frame h
    | true =>
      rw [hmc] at h
      simp only [if_true] at h
      cases hd : CourseService.syncDeleteLoop question_id qd.options
          ((dictOfAnswers existing).map Prod.fst) st with
      | error e =>
        rw [hd] at h
        exact absurd h (by simp [Bind.bind, Except.bind])
      | ok s1 =>
        rw [hd] at h
        rw [show ((Except.ok s1 : Except String Store) >>= fun s1 =>
          CourseService.syncUpsertLoop question_id qd.correct_answer
            (dictOfAnswers existing) qd.options s1) =
          CourseService.syncUpsertLoop question_id qd.correct_answer
            (dictOfAnswers existing) qd.options s1 from rfl] at h
        have h1 : s1.users = st.users ∧ s1.courses = st.courses ∧
            s1.lessons = st.lessons ∧ s1.quizzes = st.quizzes ∧
            s1.questions = st.questions := by
          refine foldlM_ok_inv (P := fun u => u.users = st.users ∧
            u.courses = st.courses ∧ u.lessons = st.lessons ∧
            u.quizzes = st.quizzes ∧ u.questions = st.questions)
            ?_ hd ⟨rfl, rfl, rfl, rfl, rfl⟩
          intro u k _ v hv hu
          split at hv
          · cases hv
            exact hu
          · have := delete_answer_frame hv
            exact ⟨this.1.trans hu.1, this.2.1.trans hu.2.1,
              this.2.2.1.trans hu.2.2.1, this.2.2.2.1.trans hu.2.2.2.1,
              this.2.2.2.2.1.trans hu.2.2.2.2⟩
        have h2 : t.users = s1.users ∧ t.courses = s1.courses ∧
            t.lessons = s1.lessons ∧ t.quizzes = s1.quizzes ∧
            t.questions = s1.questions := by
          refine foldlM_ok_inv (P := fun u => u.users = s1.users ∧
            u.courses = s1.courses ∧ u.lessons = s1.lessons ∧
            u.quizzes = s1.quizzes ∧ u.questions = s1.questions)
            ?_ h ⟨rfl, rfl, rfl, rfl, rfl⟩
          intro u o _ v hv hu
          split at hv
          · have := create_answer_frame hv
            exact ⟨this.1.trans hu.1, this.2.1.trans hu.2.1,
              this.2.2.1.trans hu.2.2.1, this.2.2.2.1.trans hu.2.2.2.1,
              this.2.2.2.2.trans hu.2.2.2.2⟩
          · cases hv
            split
            · exact hu
            · exact hu
        exact ⟨h2.1.trans h1.1, h2.2.1.trans h1.2.1,
          h2.2.2.1.trans h1.2.2.1, h2.2.2.2.1.trans h1.2.2.2.1,
          h2.2.2.2.2.trans h1.2.2.2.2⟩

/-- `ok x >>= k` reduces. -/
theorem bind_ok_reduce {ε α β : Type} (x : α) (k : α → Except ε β) :
    ((Except.ok x : Except ε α) >>= k) = k x := rfl

/-- `error e >>= k` never succeeds. -/
theorem bind_error_ne_ok {ε α β : Type} (e : ε) (k : α → Except ε β) (t : β) :
    ((Except.error e : Except ε α) >>= k) ≠ .ok t := by
  simp [Bind.bind, Except.bind]

/-- `pure x >>= k` reduces. -/
theorem bind_pure_reduce {ε α β : Type} (x : α) (k : α → Except ε β) :
    ((pure x : Except ε α) >>= k) = k x := rfl

/-- `update_lesson` leaves every lesson row with a different id in
place. -/
theorem update_lesson_mem {sv : String → String} {mu : String}
    {lesson_id : Nat} {d : LessonData} {st t : Store}
    {lr : Lesson} (h : LessonService.update_lesson sv mu lesson_id d st = .ok (t, lr)) :
    ∀ x ∈ st.lessons, (x.id == lesson_id) = false → x ∈ t.lessons := by
  unfold LessonService.update_lesson at h
  split at h
  · cases h
  · cases h
    intro x hx hne
    exact List.mem_map.mpr ⟨x, hx, by simp [hne]⟩

/-- `create_lesson` keeps every existing lesson row. -/
theorem create_lesson_mem {sv : String → String} {mu : String}
    {cid : Nat} {d : LessonData} {st t : Store}
    {lr : Lesson} (h : LessonService.create_lesson sv mu cid d st = .ok (t, lr)) :
    ∀ x ∈ st.lessons, x ∈ t.lessons := by
  unfold LessonService.create_lesson at h
  split at h
  · split at h
    · cases h
      intro x hx
      exact List.mem_append_left _ hx
    · cases h
  · cases h

/-- `update_quiz` leaves every quiz row with a different id in place. -/
theorem update_quiz_mem {quiz_id : Nat} {d : QuizData} {st t : Store}
    (h : QuizService.update_quiz quiz_id d st = .ok t) :
    ∀ x ∈ st.quizzes, (x.id == quiz_id) = false → x ∈ t.quizzes := by
  unfold QuizService.update_quiz at h
  split at h
  · cases h
  · cases h
    intro x hx hne
    exact List.mem_map.mpr ⟨x, hx, by simp [hne]⟩

/-- `create_quiz` keeps every existing quiz row. -/
theorem create_quiz_mem {d : QuizData} {cid : Nat} {st t : Store} {qr : Quiz}
    (h : QuizService.create_quiz d cid st = .ok (t, qr)) :
    ∀ x ∈ st.quizzes, x ∈ t.quizzes := by
  unfold QuizService.create_quiz at h
  split at h
  · split at h
    · cases h
      intro x hx
      exact List.mem_append_left _ hx
    · cases h
  · cases h

/-- Question-plus-answers processing touches only the questions and
answers tables (and the id sequence). -/
theorem cuq_frame {quiz_id : Nat} {qd : QuestionData} {st t : Store}
    (h : CourseService.create_or_update_question_and_answers quiz_id qd st = .ok t) :
    t.users = st.users ∧ t.courses = st.courses ∧ t.lessons = st.lessons ∧
    t.quizzes = st.quizzes := by
  unfold CourseService.create_or_update_question_and_answers at h
  rcases htitle : qd.title with _ | question_text
  · rw [htitle] at h
    cases h
  · rw [htitle] at h
    dsimp only at h
    cases hc : QuestionService.create_question quiz_id question_text st with
    | error e =>
      rw [hc] at h
      exact absurd h (bind_error_ne_ok _ _ _)
    | ok p =>
      obtain ⟨s2, cq⟩ := p
      rw [hc, bind_ok_reduce] at h
      dsimp only at h
      have h1 := create_question_frame hc
      have h2 := sync_frame h
      exact ⟨h2.1.trans h1.1, h2.2.1.trans h1.2.1,
        h2.2.2.1.trans h1.2.2.1, h2.2.2.2.1.trans h1.2.2.2.1⟩

/-- The quiz-create branch of the update path: only the quiz, question
and answer tables grow; users, courses and lessons are untouched and
every existing quiz row survives. -/
theorem cqwq_frame {course_id : Nat} {quiz : QuizData} {st t : Store}
    (h : CourseService.createQuizWithQuestions course_id quiz st = .ok t) :
    t.users = st.users ∧ t.courses = st.courses ∧ t.lessons = st.lessons ∧
    (∀ x ∈ st.quizzes, x ∈ t.quizzes) := by
  unfold CourseService.createQuizWithQuestions at h
  cases hq : QuizService.create_quiz quiz course_id st with
  | error e =>
    rw [hq] at h
    exact absurd h (bind_error_ne_ok _ _ _)
  | ok p =>
    obtain ⟨st2, cq⟩ := p
    rw [hq, bind_ok_reduce] at h
    dsimp only at h
    have h1 := create_quiz_frame hq
    have h1m := create_quiz_mem hq
    have h2 : t.users = st2.users ∧ t.courses = st2.courses ∧
        t.lessons = st2.lessons ∧ (∀ x ∈ st.quizzes, x ∈ t.quizzes) := by
      refine foldlM_ok_inv (P := fun u => u.users = st2.users ∧
        u.courses = st2.courses ∧ u.lessons = st2.lessons ∧
        (∀ x ∈ st.quizzes, x ∈ u.quizzes)) ?_ h
        ⟨rfl, rfl, rfl, h1m⟩
      intro u qd _ v hv hu
      have hf := cuq_frame hv
      refine ⟨hf.1.trans hu.1, hf.2.1.trans hu.2.1, hf.2.2.1.trans hu.2.2.1, ?_⟩
      intro x hx
      rw [hf.2.2.2]
      exact hu.2.2.2 x hx
    exact ⟨h2.1.trans h1.1, h2.2.1.trans h1.2.1, h2.2.2.1.trans h1.2.2.1,
      h2.2.2.2⟩

/-! ## Claim C6: course update is an additive merge -/

/-- C6: in a successful `update_lessons_and_quizzes` run, (1) when every
incoming quiz carries the (non-zero) id of one of the course's existing
quizzes, the whole run leaves the questions and answers tables exactly
as they were — existing quizzes are only passed to quiz update and
their nested questions/answers are never re-synchronised; (2) every
existing lesson row whose id no incoming lesson carries survives
unchanged; (3) every existing quiz row whose id no incoming quiz
carries survives unchanged. -/
theorem update_is_additive_merge (sv : String → String) (mu : String)
    (course : Course) (lessons : List LessonData)
    (quizzes : List QuizData) (s s' : Store)
    (hok : CourseService.update_lessons_and_quizzes sv mu course lessons quizzes s = .ok s') :
    ((∀ qz ∈ quizzes, ∃ qid, qz.id = some qid ∧
        (qid != 0 &&
          ((s.quizzes.filter (fun q => q.course == course.id)).map Quiz.id).contains qid) = true) →
      s'.questions = s.questions ∧ s'.answers = s.answers) ∧
    (∀ l ∈ s.lessons, (∀ ld ∈ lessons, ld.id ≠ some l.id) → l ∈ s'.lessons) ∧
    (∀ q ∈ s.quizzes, (∀ qd ∈ quizzes, qd.id ≠ some q.id) → q ∈ s'.quizzes) := by
  unfold CourseService.update_lessons_and_quizzes at hok
  cases hl : CourseService.updateLessonsLoop sv mu course
      ((s.lessons.filter (fun l => l.course == course.id)).map Lesson.id)
      lessons s with
  | error e =>
    rw [hl] at hok
    exact absurd hok (bind_error_ne_ok _ _ _)
  | ok s1 =>
    rw [hl, bind_ok_reduce] at hok
    unfold CourseService.updateLessonsLoop at hl
    unfold CourseService.updateQuizzesLoop at hok
    -- a lesson step never touches quizzes, questions or answers
    have lessonStepFrame : ∀ st (ld : LessonData), ld ∈ lessons → ∀ t,
        (match ld.id with
          | some lesson_id =>
            if lesson_id != 0 &&
                ((s.lessons.filter (fun l : Lesson => l.course == course.id)).map
                  Lesson.id).contains lesson_id then
              (LessonService.update_lesson sv mu lesson_id ld st).map Prod.fst
            else
              (LessonService.create_lesson sv mu course.id ld st).map Prod.fst
          | none => (LessonService.create_lesson sv mu course.id ld st).map Prod.fst)
          = .ok t →
        t.quizzes = st.quizzes ∧ t.questions = st.questions ∧
          t.answers = st.answers := by
      intro st ld _ t hstep
      rcases hid : ld.id with _ | lid
      · rw [hid] at hstep
        dsimp only at hstep
        obtain ⟨lr, hcr⟩ := exceptMap_fst_ok hstep
        have hf := create_lesson_frame hcr
        exact ⟨hf.2.2.1, hf.2.2.2.1, hf.2.2.2.2⟩
      · rw [hid] at hstep
        dsimp only at hstep
        split at hstep
        · obtain ⟨lr, hcr⟩ := exceptMap_fst_ok hstep
          have hf := update_lesson_frame hcr
          exact ⟨hf.2.2.1, hf.2.2.2.1, hf.2.2.2.2.1⟩
        · obtain ⟨lr, hcr⟩ := exceptMap_fst_ok hstep
          have hf := create_lesson_frame hcr
          exact ⟨hf.2.2.1, hf.2.2.2.1, hf.2.2.2.2⟩
    have lessonLoopFrame : s1.quizzes = s.quizzes ∧
        s1.questions = s.questions ∧ s1.answers = s.answers := by
      refine foldlM_ok_inv (P := fun u => u.quizzes = s.quizzes ∧
        u.questions = s.questions ∧ u.answers = s.answers) ?_ hl
        ⟨rfl, rfl, rfl⟩
      intro st ld hld t hstep hu
      have := lessonStepFrame st ld hld t hstep
      exact ⟨this.1.trans hu.1, this.2.1.trans hu.2.1, this.2.2.trans hu.2.2⟩
    refine ⟨?_, ?_, ?_⟩
    · -- (1) all incoming quizzes are existing: questions/answers frame
      intro Hq
      have quizLoopFrame : s'.questions = s1.questions ∧
          s'.answers = s1.answers := by
        refine foldlM_ok_inv (P := fun u => u.questions = s1.questions ∧
          u.answers = s1.answers) ?_ hok ⟨rfl, rfl⟩
        intro st qz hqz t hstep hu
        obtain ⟨qid, hid, hcond⟩ := Hq qz hqz
        rw [hid] at hstep
        dsimp only at hstep
        rw [hcond, if_pos rfl] at hstep
        have hf := update_quiz_frame hstep
        exact ⟨hf.2.2.2.1.trans hu.1, hf.2.2.2.2.1.trans hu.2⟩
      exact ⟨quizLoopFrame.1.trans lessonLoopFrame.2.1,
        quizLoopFrame.2.trans lessonLoopFrame.2.2⟩
    · -- (2) lessons omitted from the incoming list survive
      intro l hl0 hno
      have hs1 : l ∈ s1.lessons := by
        refine foldlM_ok_inv (P := fun u => l ∈ u.lessons) ?_ hl hl0
        intro st ld hld t hstep hu
        rcases hid : ld.id with _ | lid
        · rw [hid] at hstep
          dsimp only at hstep
          obtain ⟨lr, hcr⟩ := exceptMap_fst_ok hstep
          exact create_lesson_mem hcr l hu
        · rw [hid] at hstep
          dsimp only at hstep
          split at hstep
          · obtain ⟨lr, hcr⟩ := exceptMap_fst_ok hstep
            refine update_lesson_mem hcr l hu ?_
            have hne : ld.id ≠ some l.id := hno ld hld
            rw [hid] at hne
            simp only [beq_eq_false_iff_ne, ne_eq]
            intro hcontra
            rw [hcontra] at hne
            exact hne rfl
          · obtain ⟨lr, hcr⟩ := exceptMap_fst_ok hstep
            exact create_lesson_mem hcr l hu
      refine foldlM_ok_inv (P := fun u => l ∈ u.lessons) ?_ hok hs1
      intro st qz _ t hstep hu
      rcases hid : qz.id with _ | qid
      · rw [hid] at hstep
        dsimp only at hstep
        have hf := cqwq_frame hstep
        rw [hf.2.2.1]
        exact hu
      · rw [hid] at hstep
        dsimp only at hstep
        split at hstep
        · have hf := update_quiz_frame hstep
          rw [hf.2.2.1]
          exact hu
        · have hf := cqwq_frame hstep
          rw [hf.2.2.1]
          exact hu
    · -- (3) quizzes omitted from the incoming list survive
      intro q hq0 hno
      have hs1 : q ∈ s1.quizzes := by
        rw [lessonLoopFrame.1]
        exact hq0
      refine foldlM_ok_inv (P := fun u => q ∈ u.quizzes) ?_ hok hs1
      intro st qz hqz t hstep hu
      rcases hid : qz.id with _ | qid
      · rw [hid] at hstep
        dsimp only at hstep
        exact (cqwq_frame hstep).2.2.2 q hu
      · rw [hid] at hstep
        dsimp only at hstep
        split at hstep
        · refine update_quiz_mem hstep q hu ?_
          have hne : qz.id ≠ some q.id := hno qz hqz
          rw [hid] at hne
          simp only [beq_eq_false_iff_ne, ne_eq]
          intro hcontra
          rw [hcontra] at hne
          exact hne rfl
        · exact (cqwq_frame hstep).2.2.2 q hu

/-- The course of the C6 witness run. -/
def c6course : Course := ⟨1, "T", "D", 7, none⟩

/-- The incoming quiz list of the C6 witness run: one quiz carrying the
id of an existing quiz of the course. -/
def c6incoming : List QuizData :=
  [⟨some 2, some "newT", [⟨some "QQ", false, [], "Z"⟩]⟩]

/-- The store of the C6 witness run: course 1 owns lesson 3, quiz 2
(with question 4 and answer 5) and quiz 9. -/
def c6store : Store :=
  ⟨10, [], [c6course], [⟨3, "L", "c", "", 1, 1⟩],
    [⟨2, "qz", 1⟩, ⟨9, "other", 1⟩], [⟨4, 2, "q"⟩],
    [⟨5, 4, "a", true, false⟩]⟩

/-- The store after the C6 witness run (no incoming lesson, so the
storage oracle and `MEDIA_URL` are never consulted; the identity
oracle and the empty URL are arbitrary representatives). -/
def c6after : Store :=
  (CourseService.update_lessons_and_quizzes (fun p => p) "" c6course [] c6incoming
    c6store).toOption.getD c6store

/-- Closed instance of `update_is_additive_merge`: updating course 1
with one incoming quiz aimed at existing quiz 2 leaves questions and
answers untouched, keeps lesson 3 and keeps the omitted quiz 9. -/
theorem update_is_additive_merge_witness :
    c6after.questions = c6store.questions ∧
    c6after.answers = c6store.answers ∧
    (⟨3, "L", "c", "", 1, 1⟩ : Lesson) ∈ c6after.lessons ∧
    (⟨9, "other", 1⟩ : Quiz) ∈ c6after.quizzes := by
  have hrun : CourseService.update_lessons_and_quizzes (fun p => p) "" c6course
      [] c6incoming c6store = .ok c6after := by decide
  have h := update_is_additive_merge (fun p => p) "" c6course [] c6incoming
    c6store c6after hrun
  have hq : ∀ qz ∈ c6incoming, ∃ qid, qz.id = some qid ∧
      (qid != 0 &&
        ((c6store.quizzes.filter (fun q => q.course == c6course.id)).map
          Quiz.id).contains qid) = true := by
    intro qz hqz
    simp only [c6incoming, List.mem_singleton] at hqz
    subst hqz
    exact ⟨2, rfl, by decide⟩
  have h1 := h.1 hq
  have h2 := h.2.1 ⟨3, "L", "c", "", 1, 1⟩ (by decide)
    (by intro ld hld; simp [c6incoming] at hld)
  have h3 := h.2.2 ⟨9, "other", 1⟩ (by decide)
    (by
      intro qd hqd
      simp only [c6incoming, List.mem_singleton] at hqd
      subst hqd
      simp)
  exact ⟨h1.1, h1.2, h2, h3⟩

/-! ## Dictionary theory for the answer-sync snapshot

`dictOfAnswers` models a Python dict comprehension; these lemmas
characterise its lookups (last occurrence wins) and its key list
(first occurrences, no duplicates). -/

/-- The answers of one question, in store order (the queryset behind
the snapshot dict). -/
def answersFor (question_id : Nat) (s : Store) : List Answer :=
  s.answers.filter (fun a => a.question == question_id)

/-- Replacing the value under an existing key leaves the key list
unchanged; a fresh key is appended. -/
theorem keys_dictInsert (d : List (String × Answer)) (k0 : String) (v : Answer) :
    (dictInsert d k0 v).map Prod.fst =
      if d.any (fun p => p.1 == k0) then d.map Prod.fst
      else d.map Prod.fst ++ [k0] := by
  unfold dictInsert
  split
  · rw [List.map_map]
    refine List.map_congr_left ?_
    intro p _
    by_cases hp : p.1 = k0 <;> simp [hp]
  · simp

/-- `dictInsert` on an absent key changes nothing in the map phase. -/
theorem map_replace_id (d : List (String × Answer)) (k0 : String) (v : Answer)
    (h : d.any (fun p => p.1 == k0) = false) :
    d.map (fun p => if p.1 == k0 then (k0, v) else p) = d := by
  have hall : ∀ p ∈ d, (p.1 == k0) = false := by
    intro p hp
    by_contra hc
    have htrue : d.any (fun p => p.1 == k0) = true :=
      List.any_eq_true.mpr ⟨p, hp, by revert hc; cases (p.1 == k0) <;> simp⟩
    rw [htrue] at h
    cases h
  have hpt : ∀ p ∈ d, (if p.1 == k0 then ((k0, v) : String × Answer) else p) = p := by
    intro p hp
    rw [hall p hp]
    simp
  rw [List.map_congr_left hpt]
  simp

/-- Lookup in the replaced list, when the key occurs somewhere. -/
theorem lookup_map_replace (k0 k : String) (v : Answer) :
    ∀ d : List (String × Answer), d.any (fun p => p.1 == k0) = true →
    (d.map (fun p => if p.1 == k0 then (k0, v) else p)).lookup k =
      if k == k0 then some v else d.lookup k := by
  intro d
  induction d with
  | nil => intro h; cases h
  | cons p d ih =>
    intro h
    obtain ⟨k1, v1⟩ := p
    rw [List.map_cons]
    by_cases h1 : k1 = k0
    · rw [show (if ((k1, v1) : String × Answer).1 == k0 then
          ((k0, v) : String × Answer) else (k1, v1)) = (k0, v) from by simp [h1]]
      by_cases hk : k = k0
      · simp [List.lookup_cons, hk]
      · have hbk : (k == k0) = false := by simpa using hk
        have hbk1 : (k == k1) = false := by rw [h1]; exact hbk
        rw [List.lookup_cons, List.lookup_cons, hbk, hbk1]
        show List.lookup k (d.map (fun p => if p.1 == k0 then (k0, v) else p)) =
          List.lookup k d
        by_cases hd : d.any (fun p => p.1 == k0) = true
        · rw [ih hd, hbk]
          simp
        · have hmap := map_replace_id d k0 v
            (by revert hd; cases d.any (fun p => p.1 == k0) <;> simp)
          rw [hmap]
    · have h2 : d.any (fun p => p.1 == k0) = true := by
        rcases List.any_eq_true.mp h with ⟨q, hq, hq0⟩
        rcases List.mem_cons.mp hq with rfl | hq2
        · exact absurd (by simpa using hq0) h1
        · exact List.any_eq_true.mpr ⟨q, hq2, hq0⟩
      rw [show (if ((k1, v1) : String × Answer).1 == k0 then
          ((k0, v) : String × Answer) else (k1, v1)) = (k1, v1) from by simp [h1]]
      by_cases hk1 : k = k1
      · have hkk0 : k ≠ k0 := fun hc => h1 (by rw [← hk1, hc])
        simp [List.lookup_cons, hk1, hkk0, h1]
      · have hbk1 : (k == k1) = false := by simpa using hk1
        rw [List.lookup_cons, List.lookup_cons, hbk1]
        show List.lookup k (d.map (fun p => if p.1 == k0 then (k0, v) else p)) =
          if k == k0 then some v else List.lookup k d
        exact ih h2

/-- Lookup after appending a fresh key. -/
theorem lookup_append_single (k0 k : String) (v : Answer) :
    ∀ d : List (String × Answer), d.any (fun p => p.1 == k0) = false →
    (d ++ [(k0, v)]).lookup k = if k == k0 then some v else d.lookup k := by
  intro d
  induction d with
  | nil =>
    intro _
    by_cases hk : k = k0
    · simp [List.lookup_cons, hk]
    · simp [List.lookup_cons, show (k == k0) = false from by simpa using hk]
  | cons p d ih =>
    obtain ⟨k1, v1⟩ := p
    intro h
    simp only [List.any_cons, Bool.or_eq_false_iff] at h
    rw [List.cons_append]
    by_cases hk1 : k = k1
    · have hkk0 : k ≠ k0 := by
        have h10 : k1 ≠ k0 := by simpa using h.1
        rw [hk1]
        exact h10
      simp [List.lookup_cons, hk1, hkk0, show k1 ≠ k0 from by simpa using h.1]
    · have hbk1 : (k == k1) = false := by simpa using hk1
      rw [List.lookup_cons, List.lookup_cons, hbk1]
      show (d ++ [(k0, v)]).lookup k = if k == k0 then some v else List.lookup k d
      exact ih h.2

/-- A key matched by no pair has no lookup. -/
theorem lookup_none_of_any_false (k : String) :
    ∀ d : List (String × Answer), d.any (fun p => p.1 == k) = false →
    d.lookup k = none := by
  intro d
  induction d with
  | nil => intro _; rfl
  | cons p d ih =>
    obtain ⟨k1, v1⟩ := p
    intro h
    simp only [List.any_cons, Bool.or_eq_false_iff] at h
    have hne : k ≠ k1 := fun hc => by
      have h1 : k1 ≠ k := by simpa using h.1
      exact h1 hc.symm
    rw [List.lookup_cons, show (k == k1) = false from by simpa using hne]
    show List.lookup k d = none
    exact ih h.2

/-- The single master lemma for `dictInsert` lookups. -/
theorem lookup_dictInsert (d : List (String × Answer)) (k0 k : String) (v : Answer) :
    (dictInsert d k0 v).lookup k =
      if k == k0 then some v else d.lookup k := by
  unfold dictInsert
  split
  · exact lookup_map_replace k0 k v d (by assumption)
  · refine lookup_append_single k0 k v d ?_
    rename_i hfalse
    revert hfalse
    cases d.any (fun p => p.1 == k0) <;> simp

/-- Lookup in the snapshot dict finds the last answer carrying the
key as text (generalised over the accumulator). -/
theorem lookup_foldl_dictInsert (k : String) :
    ∀ (l : List Answer) (d : List (String × Answer)),
    (l.foldl (fun d a => dictInsert d a.text a) d).lookup k =
      match l.reverse.find? (fun a => a.text == k) with
      | some a => some a
      | none => d.lookup k := by
  intro l
  induction l with
  | nil => intro d; rfl
  | cons a l ih =>
    intro d
    rw [List.foldl_cons, ih, List.reverse_cons, List.find?_append]
    cases hf : l.reverse.find? (fun a => a.text == k) with
    | some b => rfl
    | none =>
      rw [lookup_dictInsert]
      by_cases hk : a.text = k
      · simp [List.find?, hk, Option.or]
      · have h1 : (k == a.text) = false := by
          simpa using fun hc => hk hc.symm
        have h2 : (a.text == k) = false := by simpa using hk
        simp [List.find?, h1, h2, Option.or]

/-- A successful dict lookup returns an answer of the underlying list
carrying the key as its text. -/
theorem dict_lookup_some {l : List Answer} {k : String} {a : Answer}
    (h : (dictOfAnswers l).lookup k = some a) : a ∈ l ∧ a.text = k := by
  rw [dictOfAnswers, lookup_foldl_dictInsert] at h
  cases hf : l.reverse.find? (fun a => a.text == k) with
  | none => rw [hf] at h; cases h
  | some b =>
    rw [hf] at h
    cases h
    exact ⟨List.mem_reverse.mp (List.mem_of_find?_eq_some hf),
      by simpa using List.find?_some hf⟩

/-- Every text of the underlying list has a successful dict lookup. -/
theorem dict_lookup_total {l : List Answer} {k : String}
    (h : k ∈ l.map Answer.text) :
    ∃ a, (dictOfAnswers l).lookup k = some a ∧ a ∈ l ∧ a.text = k := by
  rw [dictOfAnswers, lookup_foldl_dictInsert]
  cases hf : l.reverse.find? (fun a => a.text == k) with
  | none =>
    exfalso
    obtain ⟨b, hb, hbt⟩ := List.mem_map.mp h
    have := List.find?_eq_none.mp hf b (List.mem_reverse.mpr hb)
    simp [hbt] at this
  | some b =>
    exact ⟨b, rfl, List.mem_reverse.mp (List.mem_of_find?_eq_some hf),
      by simpa using List.find?_some hf⟩

/-- Dict keys come from texts of the underlying list. -/
theorem dict_keys_sub (k : String) :
    ∀ (l : List Answer) (d : List (String × Answer)),
    k ∈ ((l.foldl (fun d a => dictInsert d a.text a) d).map Prod.fst) →
    k ∈ d.map Prod.fst ∨ k ∈ l.map Answer.text := by
  intro l
  induction l with
  | nil => intro d h; exact Or.inl h
  | cons a l ih =>
    intro d h
    rw [List.foldl_cons] at h
    rcases ih (dictInsert d a.text a) h with h2 | h2
    · rw [keys_dictInsert] at h2
      split at h2
      · exact Or.inl h2
      · rcases List.mem_append.mp h2 with h3 | h3
        · exact Or.inl h3
        · right
          rw [List.map_cons]
          exact List.mem_cons.mpr (Or.inl (List.mem_singleton.mp h3))
    · right
      rw [List.map_cons]
      exact List.mem_cons.mpr (Or.inr h2)

/-- Every text of the underlying list is a dict key. -/
theorem dict_keys_complete (k : String) :
    ∀ (l : List Answer) (d : List (String × Answer)),
    (k ∈ d.map Prod.fst ∨ k ∈ l.map Answer.text) →
    k ∈ ((l.foldl (fun d a => dictInsert d a.text a) d).map Prod.fst) := by
  intro l
  induction l with
  | nil =>
    intro d h
    rcases h with h | h
    · exact h
    · cases h
  | cons a l ih =>
    intro d h
    rw [List.foldl_cons]
    have hmono : k ∈ d.map Prod.fst ∨ k = a.text →
        k ∈ (dictInsert d a.text a).map Prod.fst := by
      intro hd
      rw [keys_dictInsert]
      split
      · rcases hd with hd | hd
        · exact hd
        · rename_i hany
          obtain ⟨p, hp, hpk⟩ := List.any_eq_true.mp hany
          subst hd
          exact List.mem_map.mpr ⟨p, hp, by simpa using hpk⟩
      · rcases hd with hd | hd
        · exact List.mem_append.mpr (Or.inl hd)
        · exact List.mem_append.mpr (Or.inr (by simp [hd]))
    rcases h with h | h
    · exact ih _ (Or.inl (hmono (Or.inl h)))
    · rw [List.map_cons] at h
      rcases List.mem_cons.mp h with h | h
      · exact ih _ (Or.inl (hmono (Or.inr h)))
      · exact ih _ (Or.inr h)

/-- The dict key list never repeats a key. -/
theorem dict_keys_nodup :
    ∀ (l : List Answer) (d : List (String × Answer)),
    (d.map Prod.fst).Nodup →
    ((l.foldl (fun d a => dictInsert d a.text a) d).map Prod.fst).Nodup := by
  intro l
  induction l with
  | nil => intro d h; exact h
  | cons a l ih =>
    intro d h
    rw [List.foldl_cons]
    refine ih _ ?_
    rw [keys_dictInsert]
    split
    · exact h
    · rename_i hany
      have hnotin : a.text ∉ d.map Prod.fst := by
        intro hmem
        obtain ⟨p, hp, hpk⟩ := List.mem_map.mp hmem
        have : d.any (fun p => p.1 == a.text) = true :=
          List.any_eq_true.mpr ⟨p, hp, by simp [hpk]⟩
        rw [this] at hany
        exact hany rfl
      rw [List.nodup_append]
      exact ⟨h, List.nodup_singleton _, by
        intro x hx hx1
        rw [List.mem_singleton] at hx1
        subst hx1
        exact hnotin hx⟩

/-- When every snapshot key is among the incoming options, the
deletion loop does nothing. -/
theorem syncDeleteLoop_noop (question_id : Nat) (options : List String) :
    ∀ (keys : List String) (s : Store),
    (∀ k ∈ keys, options.contains k = true) →
    CourseService.syncDeleteLoop question_id options keys s = .ok s := by
  intro keys
  induction keys with
  | nil => intro s _; rfl
  | cons k keys ih =>
    intro s hall
    unfold CourseService.syncDeleteLoop at ih ⊢
    rw [List.foldlM_cons]
    rw [hall k (List.mem_cons_self k keys), if_pos rfl]
    exact ih s (fun k2 hk => hall k2 (List.mem_cons_of_mem _ hk))

/-- When every option already has a snapshot answer whose flag agrees,
the add-or-update loop does nothing. -/
theorem syncUpsertLoop_noop (question_id : Nat) (correct_answer : String)
    (dict : List (String × Answer)) :
    ∀ (opts : List String) (s : Store),
    (∀ o ∈ opts, ∃ a, dict.lookup o = some a ∧
      (a.is_correct != (o == correct_answer)) = false) →
    CourseService.syncUpsertLoop question_id correct_answer dict opts s = .ok s := by
  intro opts
  induction opts with
  | nil => intro s _; rfl
  | cons o opts ih =>
    intro s hall
    obtain ⟨a, hla, hfl⟩ := hall o (List.mem_cons_self o opts)
    unfold CourseService.syncUpsertLoop at ih ⊢
    rw [List.foldlM_cons, hla]
    rw [show ((match some a with
      | none => AnswerService.create_answer question_id o
          (o == correct_answer) true s
      | some answer =>
        pure (if answer.is_correct != (o == correct_answer)
              then saveAnswer { answer with is_correct := (o == correct_answer) } s
              else s)) : Except String Store) =
      pure (if a.is_correct != (o == correct_answer)
            then saveAnswer { a with is_correct := (o == correct_answer) } s
            else s) from rfl]
    rw [hfl]
    rw [if_neg (by simp)]
    exact ih s (fun o2 ho => hall o2 (List.mem_cons_of_mem _ ho))

/-- Saving an already-stored row back is a no-op when primary keys are
unique. -/
theorem saveAnswer_mem_id {a : Answer} {s : Store}
    (hids : (s.answers.map Answer.id).Nodup) (ha : a ∈ s.answers) :
    saveAnswer a s = s := by
  unfold saveAnswer
  have hinj := List.inj_on_of_nodup_map hids
  have hpt : ∀ x ∈ s.answers, (if x.id == a.id then a else x) = x := by
    intro x hx
    by_cases hxa : x.id = a.id
    · rw [if_pos (by simpa using hxa)]
      exact (hinj hx ha hxa).symm
    · rw [if_neg (by simpa using hxa)]
  rw [List.map_congr_left hpt]
  simp

/-- Unfolding of the sync step once the question is known to exist. -/
theorem create_or_update_answers_unfold (question_id : Nat) (qd : QuestionData)
    (s : Store) (hq : QuestionService.questionExists question_id s = true) :
    CourseService.create_or_update_answers question_id qd s =
      (if qd.is_multiple_choice then
        CourseService.syncDeleteLoop question_id qd.options
            ((dictOfAnswers (answersFor question_id s)).map Prod.fst) s >>= fun s1 =>
          CourseService.syncUpsertLoop question_id qd.correct_answer
            (dictOfAnswers (answersFor question_id s)) qd.options s1
      else
        match (dictOfAnswers (answersFor question_id s)).lookup qd.correct_answer with
        | some existing_answer =>
          pure (saveAnswer { existing_answer with is_correct := true } s)
        | none =>
          AnswerService.create_answer question_id qd.correct_answer true false s) := by
  unfold CourseService.create_or_update_answers
    AnswerService.get_answers_by_question answersFor
  rw [hq]
  rfl

/-- A store satisfying the multiple-choice sync postcondition: every
answer of the question carries one of the options with the right flag,
and every option is present. -/
def SyncedMC (question_id : Nat) (options : List String) (correct : String)
    (t : Store) : Prop :=
  (∀ a ∈ t.answers, (a.question == question_id) = true →
    a.text ∈ options ∧ a.is_correct = (a.text == correct)) ∧
  (∀ o ∈ options, o ∈ (answersFor question_id t).map Answer.text)

/-- On a `SyncedMC` store the whole multiple-choice sync is an exact
no-op. -/
theorem sync_mc_noop (question_id : Nat) (qd : QuestionData) (t : Store)
    (hmc : qd.is_multiple_choice = true)
    (hq : QuestionService.questionExists question_id t = true)
    (hsync : SyncedMC question_id qd.options qd.correct_answer t) :
    CourseService.create_or_update_answers question_id qd t = .ok t := by
  rw [create_or_update_answers_unfold question_id qd t hq, hmc, if_pos rfl]
  have hdel : CourseService.syncDeleteLoop question_id qd.options
      ((dictOfAnswers (answersFor question_id t)).map Prod.fst) t = .ok t := by
    refine syncDeleteLoop_noop question_id qd.options _ t ?_
    intro k hk
    rcases dict_keys_sub k (answersFor question_id t) [] hk with h | h
    · cases h
    · obtain ⟨a, ha, hat⟩ := List.mem_map.mp h
      have hmem := List.mem_filter.mp ha
      have := (hsync.1 a hmem.1 hmem.2).1
      rw [hat] at this
      exact List.elem_eq_true_of_mem this
  rw [hdel, bind_ok_reduce]
  refine syncUpsertLoop_noop question_id qd.correct_answer _ qd.options t ?_
  intro o ho
  obtain ⟨a, hla, hin, htext⟩ := dict_lookup_total (hsync.2 o ho)
  have hmem := List.mem_filter.mp hin
  refine ⟨a, hla, ?_⟩
  rw [(hsync.1 a hmem.1 hmem.2).2, htext]
  simp

/-- On a store whose dict already maps the correct answer to a row
flagged correct, the single-answer sync is an exact no-op. -/
theorem sync_single_noop (question_id : Nat) (qd : QuestionData) (t : Store)
    (hmc : qd.is_multiple_choice = false)
    (hq : QuestionService.questionExists question_id t = true)
    (hids : (t.answers.map Answer.id).Nodup)
    (hfound : ∃ a, (dictOfAnswers (answersFor question_id t)).lookup
        qd.correct_answer = some a ∧ a.is_correct = true) :
    CourseService.create_or_update_answers question_id qd t = .ok t := by
  rw [create_or_update_answers_unfold question_id qd t hq, hmc,
    if_neg (by simp)]
  obtain ⟨a, hla, hcorr⟩ := hfound
  rw [hla]
  have ha : a ∈ t.answers := (List.mem_filter.mp (dict_lookup_some hla).1).1
  have heq : { a with is_correct := true } = a := by
    cases a
    simp_all
  rw [show (match some a with
    | some existing_answer =>
      pure (saveAnswer { existing_answer with is_correct := true } t)
    | none =>
      AnswerService.create_answer question_id qd.correct_answer true false t :
      Except String Store) =
    pure (saveAnswer { a with is_correct := true } t) from rfl]
  rw [heq, saveAnswer_mem_id hids ha]
  rfl

/-- With at most one match, deleting the first match is deleting every
match. -/
theorem eraseFirst_eq_filter (p : Answer → Bool) :
    ∀ l : List Answer, (l.filter p).length ≤ 1 →
    eraseFirstAnswer p l = l.filter (fun a => !(p a)) := by
  intro l
  induction l with
  | nil => intro _; rfl
  | cons a l ih =>
    intro h
    unfold eraseFirstAnswer
    by_cases hp : p a = true
    · rw [if_pos hp]
      rw [List.filter_cons, if_pos hp] at h
      have hnil : l.filter p = [] := by
        refine List.length_eq_zero.mp ?_
        simp only [List.length_cons] at h
        omega
      have hall := List.filter_eq_nil_iff.mp hnil
      rw [List.filter_cons, if_neg (by simp [hp])]
      refine (List.filter_eq_self.mpr ?_).symm
      intro x hx
      have := hall x hx
      revert this
      cases p x <;> simp
    · have hp' : p a = false := by revert hp; cases p a <;> simp
      rw [if_neg (by simp [hp'])]
      rw [List.filter_cons, if_pos (by simp [hp'])]
      rw [List.filter_cons, if_neg (by simp [hp'])] at h
      rw [ih h]

/-- A list with pairwise-distinct texts has at most one row with any
given text. -/
theorem length_filter_text_le_one (k : String) :
    ∀ l : List Answer, (l.map Answer.text).Nodup →
    (l.filter (fun a => a.text == k)).length ≤ 1 := by
  intro l
  induction l with
  | nil => intro _; simp
  | cons a l ih =>
    intro h
    rw [List.map_cons, List.nodup_cons] at h
    rw [List.filter_cons]
    by_cases ha : a.text = k
    · rw [if_pos (by simpa using ha)]
      have hnil : l.filter (fun x => x.text == k) = [] := by
        rw [List.filter_eq_nil_iff]
        intro x hx hc
        have hxk : x.text = k := by simpa using hc
        exact h.1 (List.mem_map.mpr ⟨x, hx, by rw [hxk, ha]⟩)
      simp [hnil]
    · rw [if_neg (by simpa using ha)]
      exact ih h.2

/-- The question's matches for a text, inside the whole answer
table. -/
theorem filter_pair_eq (question_id : Nat) (k : String) (s : Store) :
    s.answers.filter (fun a => a.question == question_id && a.text == k) =
      (answersFor question_id s).filter (fun a => a.text == k) := by
  rw [answersFor, List.filter_filter]
  refine (List.filter_congr ?_).symm
  intro a _
  rw [Bool.and_comm]

/-- Deleting one present text from a question with duplicate-free texts
removes exactly that row. -/
theorem delete_one_key {s : Store} {question_id : Nat} {k : String}
    (hk : k ∈ (answersFor question_id s).map Answer.text)
    (htexts : ((answersFor question_id s).map Answer.text).Nodup) :
    AnswerService.delete_answer_by_question_and_text question_id k s =
      .ok { s with answers :=
        s.answers.filter (fun a =>
          !(a.question == question_id && a.text == k)) } := by
  unfold AnswerService.delete_answer_by_question_and_text
  have hany : s.answers.any
      (fun a => a.question == question_id && a.text == k) = true := by
    obtain ⟨a, ha, hat⟩ := List.mem_map.mp hk
    have hmem := List.mem_filter.mp ha
    exact List.any_eq_true.mpr ⟨a, hmem.1, by simp [hmem.2, hat]⟩
  rw [hany, if_pos rfl]
  have hle : (s.answers.filter
      (fun a => a.question == question_id && a.text == k)).length ≤ 1 := by
    rw [filter_pair_eq]
    exact length_filter_text_le_one k _ htexts
  rw [eraseFirst_eq_filter _ _ hle]

/-- The answers of the question after erasing one text. -/
theorem answersFor_after_delete (question_id : Nat) (k : String) (s : Store) :
    answersFor question_id
      { s with answers := s.answers.filter (fun a => !(a.question == question_id && a.text == k)) } =
      (answersFor question_id s).filter (fun a => !(a.text == k)) := by
  show (s.answers.filter (fun a =>
      !(a.question == question_id && a.text == k))).filter
        (fun a => a.question == question_id) =
    (s.answers.filter (fun a => a.question == question_id)).filter
      (fun a => !(a.text == k))
  rw [List.filter_filter, List.filter_filter]
  refine List.filter_congr ?_
  intro a _
  cases hq : a.question == question_id <;> cases ht : a.text == k <;> simp [hq, ht]

/-- Full characterisation of the deletion loop: under duplicate-free
texts, it filters out exactly the keyed answers of the question whose
text is not among the options. -/
theorem syncDeleteLoop_spec (question_id : Nat) (options : List String) :
    ∀ (keys : List String) (s : Store),
    keys.Nodup →
    (∀ k ∈ keys, k ∈ (answersFor question_id s).map Answer.text) →
    ((answersFor question_id s).map Answer.text).Nodup →
    CourseService.syncDeleteLoop question_id options keys s =
      .ok { s with answers := s.answers.filter (fun a =>
        !((a.question == question_id) && keys.contains a.text &&
          !(options.contains a.text))) } := by
  intro keys
  induction keys with
  | nil =>
    intro s _ _ _
    rw [show s.answers.filter (fun a =>
        !((a.question == question_id) && List.contains [] a.text &&
          !(options.contains a.text))) = s.answers from
      List.filter_eq_self.mpr (fun a _ => by simp [List.contains])]
    rfl
  | cons k keys ih =>
    intro s hnd hsub htex
    rw [List.nodup_cons] at hnd
    unfold CourseService.syncDeleteLoop at ih ⊢
    rw [List.foldlM_cons]
    by_cases hopt : options.contains k = true
    · rw [hopt, if_pos rfl]
      have hrec := ih s hnd.2
        (fun k2 h2 => hsub k2 (List.mem_cons_of_mem _ h2)) htex
      refine hrec.trans ?_
      have hfe : s.answers.filter (fun a =>
          !((a.question == question_id) && keys.contains a.text &&
            !(options.contains a.text))) =
        s.answers.filter (fun a =>
          !((a.question == question_id) && (k :: keys).contains a.text &&
            !(options.contains a.text))) := by
        refine List.filter_congr ?_
        intro a _
        by_cases hak : a.text = k
        · rw [hak]
          have hmem : k ∈ options := by simpa using hopt
          simp [hmem]
        · have : ((k :: keys).contains a.text) = (keys.contains a.text) := by
            simp only [List.contains_cons]
            rw [show (a.text == k) = false from by simpa using hak]
            simp
          rw [this]
      rw [hfe]
    · have hopt2 : options.contains k = false := by
        revert hopt; cases options.contains k <;> simp
      rw [hopt2, if_neg (by simp)]
      rw [delete_one_key (hsub k (List.mem_cons_self k keys)) htex]
      have hafter := answersFor_after_delete question_id k s
      have hsub2 : ∀ k2 ∈ keys, k2 ∈ (answersFor question_id
          { s with answers := s.answers.filter (fun a =>
            !(a.question == question_id && a.text == k)) }).map Answer.text := by
        intro k2 h2
        rw [hafter]
        obtain ⟨a, ha, hat⟩ := List.mem_map.mp (hsub k2 (List.mem_cons_of_mem _ h2))
        refine List.mem_map.mpr ⟨a, List.mem_filter.mpr ⟨ha, ?_⟩, hat⟩
        have : a.text ≠ k := by
          rw [hat]
          intro hc
          exact hnd.1 (hc ▸ h2)
        simpa using this
      have htex2 : ((answersFor question_id
          { s with answers := s.answers.filter (fun a =>
            !(a.question == question_id && a.text == k)) }).map
            Answer.text).Nodup := by
        rw [hafter]
        exact htex.sublist ((List.filter_sublist _).map Answer.text)
      have hrec := ih _ hnd.2 hsub2 htex2
      refine hrec.trans ?_
      rw [List.filter_filter]
      have hfe : s.answers.filter (fun a =>
          !((a.question == question_id) && keys.contains a.text &&
            !(options.contains a.text)) &&
          !(a.question == question_id && a.text == k)) =
        s.answers.filter (fun a =>
          !((a.question == question_id) && (k :: keys).contains a.text &&
            !(options.contains a.text))) := by
        refine List.filter_congr ?_
        intro a _
        by_cases hq : (a.question == question_id) = true
        · by_cases hak : a.text = k
          · rw [hak]
            have hnmem : k ∉ options := by simpa using hopt2
            simp [hq, hnmem]
          · have h1 : (a.text == k) = false := by simpa using hak
            simp only [List.contains_cons, h1, hq]
            simp
        · have hq2 : (a.question == question_id) = false := by
            revert hq; cases a.question == question_id <;> simp
          simp [hq2]
      rw [hfe]

/-- Invariant carried through the add-or-update loop: ids stay unique
and bounded, processed answers carry the right flag, processed options
are present, and each snapshot entry still governs the unique row with
its id. -/
def UpsertInv (question_id : Nat) (options0 : List String) (correct : String)
    (dict : List (String × Answer)) (rest : List String) (t : Store) : Prop :=
  (t.answers.map Answer.id).Nodup ∧
  (∀ a ∈ t.answers, a.id < t.nextId) ∧
  (∀ a ∈ t.answers, (a.question == question_id) = true →
      a.text ∈ options0 ∧
      ((a.text ∈ rest ∧ ((dict.lookup a.text).isSome = true)) ∨
        a.is_correct = (a.text == correct))) ∧
  (∀ o ∈ options0, o ∉ rest → o ∈ (answersFor question_id t).map Answer.text) ∧
  (∀ o a0, dict.lookup o = some a0 → o ∈ options0 →
      ((∃ b ∈ t.answers, b.id = a0.id ∧
          (b = a0 ∨ b = { a0 with is_correct := (o == correct) })) ∧
        (∀ b ∈ t.answers, (b.question == question_id) = true → b.text = o →
          b.id = a0.id)))

/-- Step preservation, create case: the option has no snapshot entry
and a fresh correctly-flagged answer is appended. -/
theorem upsert_inv_create {question_id : Nat} {options0 : List String}
    {correct : String} {dict : List (String × Answer)} {o : String}
    {rest : List String} {t : Store}
    (hinv : UpsertInv question_id options0 correct dict (o :: rest) t)
    (hlk : dict.lookup o = none) (ho : o ∈ options0) :
    UpsertInv question_id options0 correct dict rest
      { t with answers := t.answers ++ [⟨t.nextId, question_id, o, (o == correct), true⟩], nextId := t.nextId + 1 } := by
  obtain ⟨hI1, hI2, hI3, hI4, hI5⟩ := hinv
  refine ⟨?_, ?_, ?_, ?_, ?_⟩
  · rw [List.map_append, List.nodup_append]
    refine ⟨hI1, by simp, ?_⟩
    intro x hx hx2
    simp only [List.map_cons, List.map_nil, List.mem_singleton] at hx2
    obtain ⟨b, hb, hbid⟩ := List.mem_map.mp hx
    subst hx2
    have := hI2 b hb
    omega
  · intro a ha
    show a.id < t.nextId + 1
    rcases List.mem_append.mp ha with ha | ha
    · have := hI2 a ha
      omega
    · rw [List.mem_singleton] at ha
      subst ha
      simp
  · intro a ha hqa
    rcases List.mem_append.mp ha with ha | ha
    · obtain ⟨hopt, hrest⟩ := hI3 a ha hqa
      refine ⟨hopt, ?_⟩
      rcases hrest with ⟨hmem, hsome⟩ | hflag
      · rcases List.mem_cons.mp hmem with hmem | hmem
        · exfalso
          rw [hmem, hlk] at hsome
          cases hsome
        · exact Or.inl ⟨hmem, hsome⟩
      · exact Or.inr hflag
    · rw [List.mem_singleton] at ha
      subst ha
      exact ⟨ho, Or.inr rfl⟩
  · intro o2 ho2 hno2
    by_cases heq : o2 = o
    · subst heq
      refine List.mem_map.mpr ⟨⟨t.nextId, question_id, o2, (o2 == correct), true⟩, ?_, rfl⟩
      refine List.mem_filter.mpr ⟨List.mem_append.mpr (Or.inr (by simp)), by simp⟩
    · have : o2 ∉ o :: rest := by
        intro hc
        rcases List.mem_cons.mp hc with hc | hc
        · exact heq hc
        · exact hno2 hc
      obtain ⟨b, hb, hbt⟩ := List.mem_map.mp (hI4 o2 ho2 this)
      have hbf := List.mem_filter.mp hb
      exact List.mem_map.mpr ⟨b, List.mem_filter.mpr
        ⟨List.mem_append.mpr (Or.inl hbf.1), hbf.2⟩, hbt⟩
  · intro o2 a0 hl2 ho2
    obtain ⟨⟨b, hb, hbid, hbeq⟩, huniq⟩ := hI5 o2 a0 hl2 ho2
    refine ⟨⟨b, List.mem_append.mpr (Or.inl hb), hbid, hbeq⟩, ?_⟩
    intro b2 hb2 hqb2 htb2
    rcases List.mem_append.mp hb2 with hb2 | hb2
    · exact huniq b2 hb2 hqb2 htb2
    · exfalso
      rw [List.mem_singleton] at hb2
      subst hb2
      simp only at htb2
      rw [htb2] at hlk
      rw [hlk] at hl2
      cases hl2

/-- Step preservation, keep case: the option's snapshot row already
carries the right flag and nothing is written. -/
theorem upsert_inv_keep {question_id : Nat} {options0 : List String}
    {correct : String} {dict : List (String × Answer)} {o : String}
    {rest : List String} {t : Store} {a0 : Answer}
    (hinv : UpsertInv question_id options0 correct dict (o :: rest) t)
    (hlk : dict.lookup o = some a0) (ho : o ∈ options0)
    (ha0q : (a0.question == question_id) = true) (ha0t : a0.text = o)
    (hfl : a0.is_correct = (o == correct)) :
    UpsertInv question_id options0 correct dict rest t := by
  obtain ⟨hI1, hI2, hI3, hI4, hI5⟩ := hinv
  have hinj := List.inj_on_of_nodup_map hI1
  obtain ⟨⟨b, hb, hbid, hbeq⟩, huniq⟩ := hI5 o a0 hlk ho
  refine ⟨hI1, hI2, ?_, ?_, hI5⟩
  · intro a ha hqa
    obtain ⟨hopt, hrest⟩ := hI3 a ha hqa
    refine ⟨hopt, ?_⟩
    rcases hrest with ⟨hmem, hsome⟩ | hflag
    · rcases List.mem_cons.mp hmem with hmem | hmem
      · -- a.text = o: a is the unique row with id a0.id, whose flag
        -- already agrees
        right
        have haid : a.id = a0.id := huniq a ha hqa hmem
        have hab : a = b := hinj ha hb (haid.trans hbid.symm)
        rw [hab]
        rcases hbeq with hbeq | hbeq
        · rw [hbeq, ha0t]
          exact hfl
        · rw [hbeq]
          show (o == correct) = (a0.text == correct)
          rw [ha0t]
      · exact Or.inl ⟨hmem, hsome⟩
    · exact Or.inr hflag
  · intro o2 ho2 hno2
    by_cases heq : o2 = o
    · subst heq
      refine List.mem_map.mpr ⟨b, List.mem_filter.mpr ⟨hb, ?_⟩, ?_⟩
      · rcases hbeq with hbeq | hbeq <;> rw [hbeq] <;> exact ha0q
      · rcases hbeq with hbeq | hbeq <;> rw [hbeq] <;> exact ha0t
    · refine hI4 o2 ho2 ?_
      intro hc
      rcases List.mem_cons.mp hc with hc | hc
      · exact heq hc
      · exact hno2 hc

/-- Step preservation, save case: the option's snapshot row is written
back with the corrected flag. -/
theorem upsert_inv_save {question_id : Nat} {options0 : List String}
    {correct : String} {dict : List (String × Answer)} {o : String}
    {rest : List String} {t : Store} {a0 : Answer}
    (hinv : UpsertInv question_id options0 correct dict (o :: rest) t)
    (hlk : dict.lookup o = some a0) (ho : o ∈ options0)
    (ha0q : (a0.question == question_id) = true) (ha0t : a0.text = o)
    (hdict : ∀ o2 a2, dict.lookup o2 = some a2 →
      (a2.question == question_id) = true ∧ a2.text = o2) :
    UpsertInv question_id options0 correct dict rest
      (saveAnswer { a0 with is_correct := (o == correct) } t) := by
  obtain ⟨hI1, hI2, hI3, hI4, hI5⟩ := hinv
  have hinj := List.inj_on_of_nodup_map hI1
  obtain ⟨⟨b, hb, hbid, hbeq⟩, huniq⟩ := hI5 o a0 hlk ho
  -- the written row
  set newA : Answer := { a0 with is_correct := (o == correct) } with hnewA
  have hnid : newA.id = a0.id := rfl
  -- the replacement function preserves id, question and text pointwise
  have hgpt : ∀ x ∈ t.answers,
      (if x.id == newA.id then newA else x).id = x.id ∧
      (if x.id == newA.id then newA else x).question = x.question ∧
      (if x.id == newA.id then newA else x).text = x.text := by
    intro x hx
    by_cases hxid : x.id = newA.id
    · have hxb : x = b := hinj hx hb (by rw [hxid, hnid, hbid])
      have hxfields : x.question = a0.question ∧ x.text = a0.text := by
        rw [hxb]
        rcases hbeq with hbeq | hbeq <;> rw [hbeq] <;> exact ⟨rfl, rfl⟩
      rw [if_pos (by simpa using hxid)]
      exact ⟨by rw [hnid, ← hxid], by rw [show newA.question = a0.question from rfl, hxfields.1],
        by rw [show newA.text = a0.text from rfl, hxfields.2]⟩
    · rw [if_neg (by simpa using hxid)]
      exact ⟨rfl, rfl, rfl⟩
  have hanswers : (saveAnswer newA t).answers =
      t.answers.map (fun x => if x.id == newA.id then newA else x) := rfl
  have hnext : (saveAnswer newA t).nextId = t.nextId := rfl
  have hids : (saveAnswer newA t).answers.map Answer.id =
      t.answers.map Answer.id := by
    rw [hanswers, List.map_map]
    refine List.map_congr_left ?_
    intro x hx
    exact (hgpt x hx).1
  refine ⟨?_, ?_, ?_, ?_, ?_⟩
  · rw [hids]
    exact hI1
  · intro a ha
    rw [hanswers] at ha
    obtain ⟨x, hx, hxa⟩ := List.mem_map.mp ha
    rw [hnext, ← hxa]
    rw [show (if x.id == newA.id then newA else x).id = x.id from (hgpt x hx).1]
    exact hI2 x hx
  · intro a ha hqa
    rw [hanswers] at ha
    obtain ⟨x, hx, hxa⟩ := List.mem_map.mp ha
    by_cases hxid : x.id = newA.id
    · have hxb : x = b := hinj hx hb (by rw [hxid, hnid, hbid])
      have hanew : a = newA := by
        rw [← hxa, if_pos (by simpa using hxid)]
      rw [hanew]
      refine ⟨by rw [show newA.text = a0.text from rfl, ha0t]; exact ho, Or.inr ?_⟩
      rw [show newA.text = a0.text from rfl, ha0t]
    · have hax : a = x := by
        rw [← hxa, if_neg (by simpa using hxid)]
      subst hax
      obtain ⟨hopt, hrest⟩ := hI3 a hx hqa
      refine ⟨hopt, ?_⟩
      rcases hrest with ⟨hmem, hsome⟩ | hflag
      · rcases List.mem_cons.mp hmem with hmem | hmem
        · exact absurd ((huniq a hx hqa hmem).trans hnid.symm) hxid
        · exact Or.inl ⟨hmem, hsome⟩
      · exact Or.inr hflag
  · intro o2 ho2 hno2
    by_cases heq : o2 = o
    · subst heq
      refine List.mem_map.mpr ⟨newA, List.mem_filter.mpr ⟨?_, ?_⟩, ?_⟩
      · rw [hanswers]
        refine List.mem_map.mpr ⟨b, hb, ?_⟩
        rw [if_pos (by rw [hbid, ← hnid]; simp)]
      · rw [show newA.question = a0.question from rfl]
        exact ha0q
      · rw [show newA.text = a0.text from rfl]
        exact ha0t
    · have hold : o2 ∈ (answersFor question_id t).map Answer.text := by
        refine hI4 o2 ho2 ?_
        intro hc
        rcases List.mem_cons.mp hc with hc | hc
        · exact heq hc
        · exact hno2 hc
      obtain ⟨c, hc, hct⟩ := List.mem_map.mp hold
      have hcf := List.mem_filter.mp hc
      refine List.mem_map.mpr ⟨if c.id == newA.id then newA else c,
        List.mem_filter.mpr ⟨?_, ?_⟩, ?_⟩
      · rw [hanswers]
        exact List.mem_map.mpr ⟨c, hcf.1, rfl⟩
      · rw [(hgpt c hcf.1).2.1]
        exact hcf.2
      · rw [(hgpt c hcf.1).2.2]
        exact hct
  · intro o2 a2 hl2 ho22
    obtain ⟨⟨b2, hb2, hb2id, hb2eq⟩, huniq2⟩ := hI5 o2 a2 hl2 ho22
    constructor
    · by_cases heq : o2 = o
      · subst heq
        have ha2 : a2 = a0 := by
          rw [hl2] at hlk
          cases hlk
          rfl
        subst ha2
        refine ⟨newA, ?_, by rw [hnid], Or.inr rfl⟩
        rw [hanswers]
        refine List.mem_map.mpr ⟨b, hb, ?_⟩
        rw [if_pos (by rw [hbid, ← hnid]; simp)]
      · have hbne : b2.id ≠ newA.id := by
          intro hc
          have hb2b : b2 = b := hinj hb2 hb (by rw [hc, hnid, hbid])
          have ht2 : b2.text = o2 := by
            rcases hb2eq with h2 | h2 <;> rw [h2] <;>
              exact (hdict o2 a2 hl2).2
          have htb : b2.text = o := by
            rw [hb2b]
            rcases hbeq with h2 | h2 <;> rw [h2] <;> exact ha0t
          exact heq (ht2 ▸ htb ▸ rfl)
        refine ⟨b2, ?_, hb2id, hb2eq⟩
        rw [hanswers]
        refine List.mem_map.mpr ⟨b2, hb2, ?_⟩
        rw [if_neg (by simpa using hbne)]
    · intro c hc hqc htc
      rw [hanswers] at hc
      obtain ⟨x, hx, hxc⟩ := List.mem_map.mp hc
      have hxq : x.question = c.question := ((hgpt x hx).2.1).symm ▸ (by rw [← hxc, (hgpt x hx).2.1])
      have hxt : x.text = c.text := by rw [← hxc, (hgpt x hx).2.2]
      have hxid : x.id = c.id := by rw [← hxc, (hgpt x hx).1]
      rw [← hxid]
      refine huniq2 x hx ?_ ?_
      · rw [show x.question = c.question from by rw [← hxc, ← (hgpt x hx).2.1]]
        exact hqc
      · rw [hxt]
        exact htc

/-- Running the add-or-update loop to completion turns the invariant
for the remaining options into the invariant with nothing left. -/
theorem syncUpsertLoop_inv (question_id : Nat) (options0 : List String)
    (correct : String) (dict : List (String × Answer))
    (hdict : ∀ o2 a2, dict.lookup o2 = some a2 →
      (a2.question == question_id) = true ∧ a2.text = o2) :
    ∀ (rest : List String) (t : Store),
    (∀ o ∈ rest, o ∈ options0) →
    QuestionService.questionExists question_id t = true →
    UpsertInv question_id options0 correct dict rest t →
    ∀ t', CourseService.syncUpsertLoop question_id correct dict rest t = .ok t' →
    UpsertInv question_id options0 correct dict [] t' ∧
      QuestionService.questionExists question_id t' = true := by
  intro rest
  induction rest with
  | nil =>
    intro t _ hq hinv t' h
    unfold CourseService.syncUpsertLoop at h
    rw [List.foldlM_nil] at h
    cases h
    exact ⟨hinv, hq⟩
  | cons o rest ih =>
    intro t hsub hq hinv t' h
    unfold CourseService.syncUpsertLoop at h ih
    rw [List.foldlM_cons] at h
    cases hlk : dict.lookup o with
    | none =>
      rw [hlk] at h
      dsimp only at h
      have hcr : AnswerService.create_answer question_id o (o == correct) true t =
          .ok { t with answers := t.answers ++ [⟨t.nextId, question_id, o, (o == correct), true⟩], nextId := t.nextId + 1 } := by
        unfold AnswerService.create_answer
        rw [hq]
        rfl
      rw [hcr, bind_ok_reduce] at h
      exact ih { t with answers := t.answers ++ [⟨t.nextId, question_id, o, (o == correct), true⟩], nextId := t.nextId + 1 }
        (fun o2 ho2 => hsub o2 (List.mem_cons_of_mem _ ho2)) hq
        (upsert_inv_create hinv hlk (hsub o (List.mem_cons_self o rest))) t' h
    | some a0 =>
      rw [hlk] at h
      dsimp only at h
      obtain ⟨ha0q, ha0t⟩ := hdict o a0 hlk
      by_cases hfl : (a0.is_correct != (o == correct)) = true
      · rw [if_pos hfl, bind_pure_reduce] at h
        exact ih (saveAnswer { a0 with is_correct := (o == correct) } t)
          (fun o2 ho2 => hsub o2 (List.mem_cons_of_mem _ ho2)) hq
          (upsert_inv_save hinv hlk (hsub o (List.mem_cons_self o rest))
            ha0q ha0t hdict) t' h
      · have hfl2 : a0.is_correct = (o == correct) := by
          revert hfl
          cases ha : a0.is_correct <;> cases hb : (o == correct) <;> simp
        rw [if_neg hfl, bind_pure_reduce] at h
        exact ih t (fun o2 ho2 => hsub o2 (List.mem_cons_of_mem _ ho2)) hq
          (upsert_inv_keep hinv hlk (hsub o (List.mem_cons_self o rest))
            ha0q ha0t hfl2) t' h

/-- A successful multiple-choice sync leaves a `SyncedMC` store with
unique ids and the question still present. -/
theorem sync_mc_post (question_id : Nat) (qd : QuestionData) (s s1 : Store)
    (hmc : qd.is_multiple_choice = true)
    (hids : (s.answers.map Answer.id).Nodup)
    (hbound : ∀ a ∈ s.answers, a.id < s.nextId)
    (htexts : ((answersFor question_id s).map Answer.text).Nodup)
    (hq : QuestionService.questionExists question_id s = true)
    (h1 : CourseService.create_or_update_answers question_id qd s = .ok s1) :
    SyncedMC question_id qd.options qd.correct_answer s1 ∧
    (s1.answers.map Answer.id).Nodup ∧
    QuestionService.questionExists question_id s1 = true := by
  have htinj := List.inj_on_of_nodup_map htexts
  have hdict : ∀ o2 a2,
      (dictOfAnswers (answersFor question_id s)).lookup o2 = some a2 →
      (a2.question == question_id) = true ∧ a2.text = o2 := by
    intro o2 a2 hl
    obtain ⟨hmem, htxt⟩ := dict_lookup_some hl
    exact ⟨(List.mem_filter.mp hmem).2, htxt⟩
  rw [create_or_update_answers_unfold question_id qd s hq, hmc, if_pos rfl] at h1
  have hkeysnd : ((dictOfAnswers (answersFor question_id s)).map Prod.fst).Nodup :=
    dict_keys_nodup (answersFor question_id s) [] (by simp)
  have hkeyssub : ∀ k ∈ (dictOfAnswers (answersFor question_id s)).map Prod.fst,
      k ∈ (answersFor question_id s).map Answer.text := by
    intro k hk
    rcases dict_keys_sub k (answersFor question_id s) [] hk with h | h
    · cases h
    · exact h
  rw [syncDeleteLoop_spec question_id qd.options _ s hkeysnd hkeyssub htexts,
    bind_ok_reduce] at h1
  -- initial invariant on the post-deletion store
  have hinv0 : UpsertInv question_id qd.options qd.correct_answer
      (dictOfAnswers (answersFor question_id s)) qd.options
      { s with answers := s.answers.filter (fun a =>
        !((a.question == question_id) &&
          ((dictOfAnswers (answersFor question_id s)).map Prod.fst).contains a.text &&
          !(qd.options.contains a.text))) } := by
    refine ⟨?_, ?_, ?_, ?_, ?_⟩
    · exact hids.sublist ((List.filter_sublist _).map Answer.id)
    · intro a ha
      exact hbound a (List.mem_filter.mp ha).1
    · intro a ha hqa
      have hf := List.mem_filter.mp ha
      have hex : a ∈ answersFor question_id s := List.mem_filter.mpr ⟨hf.1, hqa⟩
      have hktext : a.text ∈ (answersFor question_id s).map Answer.text :=
        List.mem_map.mpr ⟨a, hex, rfl⟩
      have hkeys : ((dictOfAnswers (answersFor question_id s)).map
          Prod.fst).contains a.text = true :=
        List.elem_eq_true_of_mem (dict_keys_complete a.text _ [] (Or.inr hktext))
      have hopt : qd.options.contains a.text = true := by
        have hp := hf.2
        rw [hqa, hkeys] at hp
        revert hp
        cases qd.options.contains a.text <;> simp
      obtain ⟨a2, hl2, _, _⟩ := dict_lookup_total hktext
      exact ⟨by simpa using hopt, Or.inl ⟨by simpa using hopt, by rw [hl2]; rfl⟩⟩
    · intro o ho hno
      exact absurd ho hno
    · intro o a0 hl ho
      obtain ⟨ha0mem, ha0t⟩ := dict_lookup_some hl
      have ha0f := List.mem_filter.mp ha0mem
      have ha0in : a0 ∈ (s.answers.filter (fun a =>
          !((a.question == question_id) &&
            ((dictOfAnswers (answersFor question_id s)).map Prod.fst).contains a.text &&
            !(qd.options.contains a.text)))) := by
        refine List.mem_filter.mpr ⟨ha0f.1, ?_⟩
        have hoptmem : qd.options.contains a0.text = true := by
          rw [ha0t]
          exact List.elem_eq_true_of_mem ho
        rw [hoptmem]
        simp
      refine ⟨⟨a0, ha0in, rfl, Or.inl rfl⟩, ?_⟩
      intro b hb hqb htb
      have hbex : b ∈ answersFor question_id s :=
        List.mem_filter.mpr ⟨(List.mem_filter.mp hb).1, hqb⟩
      have : b = a0 := htinj hbex ha0mem (by rw [htb, ha0t])
      rw [this]
  obtain ⟨hinvf, hqf⟩ := syncUpsertLoop_inv question_id qd.options
    qd.correct_answer _ hdict qd.options
    { s with answers := s.answers.filter (fun a =>
      !((a.question == question_id) &&
        ((dictOfAnswers (answersFor question_id s)).map Prod.fst).contains a.text &&
        !(qd.options.contains a.text))) }
    (fun o ho => ho) hq hinv0 s1 h1
  obtain ⟨hI1, _, hI3, hI4, _⟩ := hinvf
  refine ⟨⟨?_, ?_⟩, hI1, hqf⟩
  · intro a ha hqa
    obtain ⟨hopt, hrest⟩ := hI3 a ha hqa
    refine ⟨hopt, ?_⟩
    rcases hrest with ⟨hmem, _⟩ | hflag
    · cases hmem
    · exact hflag
  · intro o ho
    exact hI4 o ho (by simp)

/-- Filtering by question commutes with a question-preserving map. -/
theorem filter_map_comm_question (question_id : Nat) (g : Answer → Answer) :
    ∀ l : List Answer, (∀ x ∈ l, (g x).question = x.question) →
    (l.map g).filter (fun a => a.question == question_id) =
      (l.filter (fun a => a.question == question_id)).map g := by
  intro l
  induction l with
  | nil => intro _; rfl
  | cons a l ih =>
    intro hpt
    rw [List.map_cons, List.filter_cons, List.filter_cons]
    have hga : (((g a).question == question_id) : Bool) =
        ((a.question == question_id) : Bool) := by
      rw [hpt a (List.mem_cons_self a l)]
    rw [hga]
    by_cases hc : (a.question == question_id) = true
    · rw [if_pos hc, if_pos hc, List.map_cons,
        ih (fun x hx => hpt x (List.mem_cons_of_mem _ hx))]
    · rw [if_neg hc, if_neg hc, ih (fun x hx => hpt x (List.mem_cons_of_mem _ hx))]

/-- A successful single-answer sync leaves unique ids, the question in
place, and a dict entry for the correct answer that is flagged
correct. -/
theorem sync_single_post (question_id : Nat) (qd : QuestionData) (s s1 : Store)
    (hmc : qd.is_multiple_choice = false)
    (hids : (s.answers.map Answer.id).Nodup)
    (hbound : ∀ a ∈ s.answers, a.id < s.nextId)
    (htexts : ((answersFor question_id s).map Answer.text).Nodup)
    (hq : QuestionService.questionExists question_id s = true)
    (h1 : CourseService.create_or_update_answers question_id qd s = .ok s1) :
    (s1.answers.map Answer.id).Nodup ∧
    QuestionService.questionExists question_id s1 = true ∧
    ∃ a, (dictOfAnswers (answersFor question_id s1)).lookup qd.correct_answer =
        some a ∧ a.is_correct = true := by
  have htinj := List.inj_on_of_nodup_map htexts
  have hinj := List.inj_on_of_nodup_map hids
  rw [create_or_update_answers_unfold question_id qd s hq, hmc,
    if_neg (by simp)] at h1
  cases hlk : (dictOfAnswers (answersFor question_id s)).lookup
      qd.correct_answer with
  | some a0 =>
    rw [hlk] at h1
    have h1e : Except.ok (saveAnswer { a0 with is_correct := true } s) =
        Except.ok s1 := h1
    injection h1e with h1e
    subst h1e
    obtain ⟨ha0mem, ha0t⟩ := dict_lookup_some hlk
    have ha0f := List.mem_filter.mp ha0mem
    have hgq : ∀ x ∈ s.answers,
        ((if x.id == ({ a0 with is_correct := true } : Answer).id
          then ({ a0 with is_correct := true } : Answer) else x)).question =
          x.question := by
      intro x hx
      by_cases hxid : x.id = a0.id
      · have hxa : x = a0 := hinj hx ha0f.1 hxid
        rw [if_pos (by simpa using hxid), hxa]
      · rw [if_neg (by simpa using hxid)]
    have hgt : ∀ x ∈ s.answers,
        ((if x.id == ({ a0 with is_correct := true } : Answer).id
          then ({ a0 with is_correct := true } : Answer) else x)).text =
          x.text := by
      intro x hx
      by_cases hxid : x.id = a0.id
      · have hxa : x = a0 := hinj hx ha0f.1 hxid
        rw [if_pos (by simpa using hxid), hxa]
      · rw [if_neg (by simpa using hxid)]
    have hgid : ∀ x ∈ s.answers,
        ((if x.id == ({ a0 with is_correct := true } : Answer).id
          then ({ a0 with is_correct := true } : Answer) else x)).id = x.id := by
      intro x hx
      by_cases hxid : x.id = a0.id
      · rw [if_pos (by simpa using hxid), hxid]
      · rw [if_neg (by simpa using hxid)]
    refine ⟨?_, hq, ?_⟩
    · have hidmap : (s.answers.map (fun x =>
          if x.id == ({ a0 with is_correct := true } : Answer).id
          then ({ a0 with is_correct := true } : Answer) else x)).map Answer.id =
          s.answers.map Answer.id := by
        rw [List.map_map]
        exact List.map_congr_left (fun x hx => hgid x hx)
      rw [show (saveAnswer { a0 with is_correct := true } s).answers =
        s.answers.map (fun x =>
          if x.id == ({ a0 with is_correct := true } : Answer).id
          then ({ a0 with is_correct := true } : Answer) else x) from rfl]
      rw [hidmap]
      exact hids
    · have hfm : answersFor question_id
          (saveAnswer { a0 with is_correct := true } s) =
          (answersFor question_id s).map (fun x =>
            if x.id == ({ a0 with is_correct := true } : Answer).id
            then ({ a0 with is_correct := true } : Answer) else x) := by
        rw [show answersFor question_id
            (saveAnswer { a0 with is_correct := true } s) =
          (s.answers.map (fun x =>
            if x.id == ({ a0 with is_correct := true } : Answer).id
            then ({ a0 with is_correct := true } : Answer) else x)).filter
            (fun a => a.question == question_id) from rfl]
        exact filter_map_comm_question question_id _ s.answers hgq
      have hcor : qd.correct_answer ∈ (answersFor question_id
          (saveAnswer { a0 with is_correct := true } s)).map Answer.text := by
        rw [hfm, List.map_map]
        refine List.mem_map.mpr ⟨a0, ha0mem, ?_⟩
        show (if a0.id == ({ a0 with is_correct := true } : Answer).id
          then ({ a0 with is_correct := true } : Answer) else a0).text =
          qd.correct_answer
        rw [if_pos (by simp), ← ha0t]
      obtain ⟨a2, hla2, ha2mem, ha2t⟩ := dict_lookup_total hcor
      refine ⟨a2, hla2, ?_⟩
      rw [hfm] at ha2mem
      obtain ⟨x, hx, hgx⟩ := List.mem_map.mp ha2mem
      have hxs : x ∈ s.answers := (List.mem_filter.mp hx).1
      have hxt : x.text = qd.correct_answer := by
        rw [← hgt x hxs, hgx, ha2t]
      have hxa0 : x = a0 := htinj hx ha0mem (by rw [hxt, ha0t])
      rw [← hgx, hxa0, if_pos (by simp)]
  | none =>
    rw [hlk] at h1
    have hcr : AnswerService.create_answer question_id qd.correct_answer true
        false s = .ok { s with answers := s.answers ++ [⟨s.nextId, question_id, qd.correct_answer, true, false⟩], nextId := s.nextId + 1 } := by
      unfold AnswerService.create_answer
      rw [hq]
      rfl
    rw [hcr] at h1
    injection h1 with h1e
    subst h1e
    refine ⟨?_, hq, ?_⟩
    · rw [show ({ s with answers := s.answers ++ [⟨s.nextId, question_id, qd.correct_answer, true, false⟩], nextId := s.nextId + 1 } : Store).answers = s.answers ++ [⟨s.nextId, question_id, qd.correct_answer, true, false⟩] from rfl]
      rw [List.map_append, List.nodup_append]
      refine ⟨hids, by simp, ?_⟩
      intro x hx hx2
      simp only [List.map_cons, List.map_nil, List.mem_singleton] at hx2
      obtain ⟨b, hb, hbid⟩ := List.mem_map.mp hx
      subst hx2
      have := hbound b hb
      omega
    · have hfm : answersFor question_id
          ({ s with answers := s.answers ++ [⟨s.nextId, question_id, qd.correct_answer, true, false⟩], nextId := s.nextId + 1 } : Store) =
          answersFor question_id s ++ [⟨s.nextId, question_id, qd.correct_answer, true, false⟩] := by
        show (s.answers ++ [(⟨s.nextId, question_id, qd.correct_answer, true, false⟩ : Answer)]).filter (fun a : Answer => a.question == question_id) = _
        rw [List.filter_append]
        congr 1
        simp
      have hcor : qd.correct_answer ∈ (answersFor question_id
          ({ s with answers := s.answers ++ [⟨s.nextId, question_id, qd.correct_answer, true, false⟩], nextId := s.nextId + 1 } : Store)).map Answer.text := by
        rw [hfm, List.map_append]
        exact List.mem_append.mpr (Or.inr (by simp))
      obtain ⟨a2, hla2, ha2mem, ha2t⟩ := dict_lookup_total hcor
      refine ⟨a2, hla2, ?_⟩
      rw [hfm] at ha2mem
      rcases List.mem_append.mp ha2mem with hmem | hmem
      · exfalso
        have : qd.correct_answer ∈ (answersFor question_id s).map Answer.text :=
          List.mem_map.mpr ⟨a2, hmem, ha2t⟩
        obtain ⟨a3, hla3, _, _⟩ := dict_lookup_total this
        rw [hla3] at hlk
        cases hlk
      · rw [List.mem_singleton] at hmem
        rw [hmem]

/-! ## Claim C3: answer-sync idempotence -/

/-- A store with two stored answers sharing the text "Z" for
question 5. -/
def c3dupStore : Store :=
  ⟨6, [], [], [], [], [⟨5, 77, "q"⟩],
    [⟨1, 5, "Z", false, true⟩, ⟨2, 5, "Z", false, true⟩]⟩

/-- The sync payload of the C3 counterexample. -/
def c3dupQd : QuestionData := ⟨some "t", true, ["A"], "A"⟩

/-- The store after the first sync of the C3 counterexample. -/
def c3dupS1 : Store :=
  (CourseService.create_or_update_answers 5 c3dupQd c3dupStore).toOption.getD
    c3dupStore

/-- The store after the second sync of the C3 counterexample. -/
def c3dupS2 : Store :=
  (CourseService.create_or_update_answers 5 c3dupQd c3dupS1).toOption.getD
    c3dupS1

/-- C3, counterexample: with two stored answers both reading "Z", the
first sync deletes only the first of them (the deletion loop iterates
over the snapshot dict's KEYS and `delete_answer_by_question_and_text`
removes only the first match), so the second sync still finds — and
deletes — the surviving "Z": the second invocation deletes an answer,
refuting idempotence as claimed. -/
theorem answer_sync_not_idempotent :
    CourseService.create_or_update_answers 5 c3dupQd c3dupStore = .ok c3dupS1 ∧
    CourseService.create_or_update_answers 5 c3dupQd c3dupS1 = .ok c3dupS2 ∧
    c3dupS1.answers.length = 2 ∧ c3dupS2.answers.length = 1 ∧
    c3dupS2 ≠ c3dupS1 := by
  decide

/-- C3 (amended): on any store whose answer rows have pairwise-distinct
ids below the id counter (database-consistent primary keys) and whose
stored texts for the question are pairwise distinct, a successful sync
run makes a second identical run an exact no-op: no answer is added,
deleted, re-flagged or assigned a new id. -/
theorem answer_sync_idempotent (question_id : Nat) (qd : QuestionData)
    (s s1 : Store)
    (hids : (s.answers.map Answer.id).Nodup)
    (hbound : ∀ a ∈ s.answers, a.id < s.nextId)
    (htexts : ((answersFor question_id s).map Answer.text).Nodup)
    (h1 : CourseService.create_or_update_answers question_id qd s = .ok s1) :
    CourseService.create_or_update_answers question_id qd s1 = .ok s1 := by
  have hq : QuestionService.questionExists question_id s = true := by
    by_cases hc : QuestionService.questionExists question_id s = true
    · exact hc
    · exfalso
      have hqf : QuestionService.questionExists question_id s = false := by
        revert hc
        cases QuestionService.questionExists question_id s <;> simp
      unfold CourseService.create_or_update_answers
        AnswerService.get_answers_by_question at h1
      rw [hqf] at h1
      exact bind_error_ne_ok _ _ _ h1
  cases hmc : qd.is_multiple_choice with
  | true =>
    obtain ⟨hsync, hids1, hq1⟩ :=
      sync_mc_post question_id qd s s1 hmc hids hbound htexts hq h1
    exact sync_mc_noop question_id qd s1 hmc hq1 hsync
  | false =>
    obtain ⟨hids1, hq1, hfound⟩ :=
      sync_single_post question_id qd s s1 hmc hids hbound htexts hq h1
    exact sync_single_noop question_id qd s1 hmc hq1 hids1 hfound

/-- The store after one sync of the witness run (question 3, options
[B, C], correct C, starting from answers A:true and B:false). -/
def c3wit_s1 : Store :=
  (CourseService.create_or_update_answers 3 ⟨some "Q", true, ["B", "C"], "C"⟩
    (c2store false)).toOption.getD (c2store false)

/-- Closed instance of `answer_sync_idempotent` on the C2 scenario: the
second identical sync returns the first sync's store unchanged. -/
theorem answer_sync_idempotent_witness :
    CourseService.create_or_update_answers 3
      ⟨some "Q", true, ["B", "C"], "C"⟩ c3wit_s1 = .ok c3wit_s1 :=
  answer_sync_idempotent 3 ⟨some "Q", true, ["B", "C"], "C"⟩ (c2store false)
    c3wit_s1 (by decide) (by decide) (by decide) (by decide)
